import Mathlib

/-!
# downscale.js — shallow embedding and verified properties

The embedding follows `src/dist/downscale.js`.

JavaScript numbers are modelled by `JSNum`: exact rationals for the finite
values, plus `+Infinity`, `-Infinity` and `NaN`.  Arithmetic on finite values
is exact (the rounding error of IEEE-754 doubles and the sign of zero are not
modelled); division by zero and the arithmetic of the non-finite values follow
ECMAScript.  The 32-bit integer operators (`<<`, `>>`, `>>>`, `|`) are
modelled exactly on `Int` with explicit wrapping modulo `2^32`.

The arrays of `createCache` and the state shared by the calls of `downscale`
are passed explicitly; a thrown `TypeError` is a result `none`, and the
callbacks that the platform fires are steps taken by the environment.
-/

namespace Downscale

/-! ## JavaScript numbers -/

/-- A JavaScript number: a finite value, `+Infinity`, `-Infinity` or `NaN`. -/
inductive JSNum where
  | fin (q : ℚ)
  | posInf
  | negInf
  | nan
  deriving DecidableEq

namespace JSNum

/-- Unary minus. -/
def neg : JSNum → JSNum
  | fin q => fin (-q)
  | posInf => negInf
  | negInf => posInf
  | nan => nan

/-- The `+` operator on numbers. -/
def add : JSNum → JSNum → JSNum
  | fin a, fin b => fin (a + b)
  | nan, _ => nan
  | _, nan => nan
  | posInf, negInf => nan
  | negInf, posInf => nan
  | posInf, _ => posInf
  | negInf, _ => negInf
  | fin _, posInf => posInf
  | fin _, negInf => negInf

/-- The binary `-` operator on numbers. -/
def sub (a b : JSNum) : JSNum := add a (neg b)

/-- Infinity carrying the sign of a product or quotient: positive when the
two factors have the same sign. -/
def signedInf (sameSign : Bool) : JSNum := if sameSign then posInf else negInf

/-- The `*` operator on numbers. -/
def mul : JSNum → JSNum → JSNum
  | fin a, fin b => fin (a * b)
  | nan, _ => nan
  | _, nan => nan
  | posInf, fin b => if b = 0 then nan else signedInf (decide (0 < b))
  | negInf, fin b => if b = 0 then nan else signedInf (decide (b < 0))
  | fin a, posInf => if a = 0 then nan else signedInf (decide (0 < a))
  | fin a, negInf => if a = 0 then nan else signedInf (decide (a < 0))
  | posInf, posInf => posInf
  | negInf, negInf => posInf
  | posInf, negInf => negInf
  | negInf, posInf => negInf

/-- The `/` operator on numbers.  A finite non-zero value divided by zero is
an infinity (the zero divisor is taken as `+0`), `0/0` is `NaN`. -/
def div : JSNum → JSNum → JSNum
  | fin a, fin b =>
      if b = 0 then (if a = 0 then nan else signedInf (decide (0 < a)))
      else fin (a / b)
  | nan, _ => nan
  | _, nan => nan
  | fin _, posInf => fin 0
  | fin _, negInf => fin 0
  | posInf, fin b => signedInf (decide (0 ≤ b))
  | negInf, fin b => signedInf (decide (b < 0))
  | posInf, posInf => nan
  | posInf, negInf => nan
  | negInf, posInf => nan
  | negInf, negInf => nan

/-- The `>` operator on numbers; any comparison with `NaN` is false. -/
def gt : JSNum → JSNum → Bool
  | fin a, fin b => decide (b < a)
  | nan, _ => false
  | _, nan => false
  | posInf, posInf => false
  | posInf, _ => true
  | negInf, _ => false
  | fin _, posInf => false
  | fin _, negInf => true

/-- Truthiness of a number (`ToBoolean`): `0` and `NaN` are falsy. -/
def truthy : JSNum → Bool
  | fin q => decide (q ≠ 0)
  | nan => false
  | _ => true

/-- A natural number as a JavaScript number. -/
def ofNat (n : Nat) : JSNum := fin (n : ℚ)

/-- An integer as a JavaScript number. -/
def ofInt (z : Int) : JSNum := fin (z : ℚ)

end JSNum

/-! ## 32-bit integer operators -/

/-- Wrap an integer into the signed 32-bit range `[-2^31, 2^31)`. -/
def wrapInt32 (z : Int) : Int := (z + 2147483648) % 4294967296 - 2147483648

/-- Wrap an integer into the unsigned 32-bit range `[0, 2^32)`. -/
def wrapUint32 (z : Int) : Nat := (z % 4294967296).toNat

/-- Truncation of a rational toward zero. -/
def truncQ (q : ℚ) : Int := Int.tdiv q.num (q.den : Int)

/-- ECMAScript `ToInt32`: non-finite values give `0`; a finite value is
truncated toward zero and wrapped modulo `2^32` into the signed range. -/
def toInt32 : JSNum → Int
  | JSNum.fin q => wrapInt32 (truncQ q)
  | _ => 0

/-- The operator `x << k` on a 32-bit integer `x`. -/
def shl (x : Int) (k : Nat) : Int := wrapInt32 (x * 2 ^ k)

/-- The operator `x >>> k` on a 32-bit integer `x`. -/
def ushr (x : Int) (k : Nat) : Int := ((wrapUint32 x / 2 ^ k : Nat) : Int)

/-- The operator `x | y` on 32-bit integers: bitwise or of the two's complement
patterns, read back as a signed 32-bit integer. -/
def bor (x y : Int) : Int := wrapInt32 (((wrapUint32 x ||| wrapUint32 y : Nat) : Int))

/-- Source function `round`: `(val + 0.5) << 0`. -/
def round (val : JSNum) : Int := shl (toInt32 (JSNum.add val (JSNum.fin (1 / 2)))) 0

/-! ## Image data and `downsample` -/

/-- An `ImageData` seen through `new Int32Array(imageData.data.buffer)`: one
signed 32-bit integer per pixel, row-major. -/
structure ImageData where
  width : Nat
  height : Nat
  data : List Int
  deriving DecidableEq

/-- Well-formed image data: `width * height` pixels, each a signed 32-bit
integer. -/
def ImageData.WF (img : ImageData) : Prop :=
  img.data.length = img.width * img.height ∧
    ∀ p ∈ img.data, -2147483648 ≤ p ∧ p < 2147483648

instance (img : ImageData) : Decidable img.WF := by
  unfold ImageData.WF; infer_instance

/-- Reading `SOURCE_DATA[idx]` from an `Int32Array`: the element when `idx` is
an integer inside the array, `undefined` (here `none`) otherwise. -/
def readPx (data : List Int) : JSNum → Option Int
  | JSNum.fin q =>
      if q.den = 1 ∧ 0 ≤ q.num then data[q.num.toNat]? else none
  | _ => none

/-- `ToInt32` of the value read from the array: `undefined` converts to `0`. -/
def pxInt32 (px : Option Int) : Int := px.getD 0

/-- Red channel of a read: `sourcePx << 24 >>> 24`. -/
def pxRed (px : Option Int) : Int := ushr (shl (pxInt32 px) 24) 24

/-- Green channel of a read: `sourcePx << 16 >>> 24`. -/
def pxGreen (px : Option Int) : Int := ushr (shl (pxInt32 px) 16) 24

/-- Blue channel of a read: `sourcePx << 8 >>> 24`. -/
def pxBlue (px : Option Int) : Int := ushr (shl (pxInt32 px) 8) 24

/-- Alpha channel of a read: `sourcePx >>> 24`. -/
def pxAlpha (px : Option Int) : Int := ushr (pxInt32 px) 24

/-- The four colour channels. -/
inductive Channel where
  | red | green | blue | alpha
  deriving DecidableEq

/-- Channel extraction as written in the inner loop of `downsample`. -/
def pxChan : Channel → Option Int → Int
  | Channel.red => pxRed
  | Channel.green => pxGreen
  | Channel.blue => pxBlue
  | Channel.alpha => pxAlpha

/-- The scale parameters computed at the top of `downsample`. -/
structure Scale where
  factorX : JSNum
  factorY : JSNum
  rangeX : Int
  rangeY : Int
  rangeSqr : Int

/-- `SCALE_FACTOR_X`, `SCALE_FACTOR_Y`, `SCALE_RANGE_X`, `SCALE_RANGE_Y` and
`SCALE_RANGE_SQR` of `downsample`. -/
def scaleOf (destWidth destHeight : Nat) (sourceWidth sourceHeight : JSNum) : Scale :=
  let fx := JSNum.div (JSNum.ofNat destWidth) sourceWidth
  let fy := JSNum.div (JSNum.ofNat destHeight) sourceHeight
  let rx := round (JSNum.div (JSNum.fin 1) fx)
  let ry := round (JSNum.div (JSNum.fin 1) fy)
  { factorX := fx, factorY := fy, rangeX := rx, rangeY := ry, rangeSqr := rx * ry }

/-- The anchor `sourceInd` of destination pixel `(destCol, destRow)`. -/
def sourceInd (srcWidth : Nat) (s : Scale) (sourceX sourceY : JSNum)
    (destCol destRow : Nat) : JSNum :=
  JSNum.add
    (JSNum.add sourceX (JSNum.ofInt (round (JSNum.div (JSNum.ofNat destCol) s.factorX))))
    (JSNum.mul
      (JSNum.add sourceY (JSNum.ofInt (round (JSNum.div (JSNum.ofNat destRow) s.factorY))))
      (JSNum.ofNat srcWidth))

/-- The index `sourceInd + sourceCol + sourceRow * SOURCE_WIDTH` read in the
inner loop. -/
def readIndex (srcWidth : Nat) (ind : JSNum) (sourceCol sourceRow : Nat) : JSNum :=
  JSNum.add (JSNum.add ind (JSNum.ofNat sourceCol))
    (JSNum.mul (JSNum.ofNat sourceRow) (JSNum.ofNat srcWidth))

/-- The `(sourceCol, sourceRow)` pairs visited by the two inner loops, in
order: `sourceRow` from `0` below `SCALE_RANGE_Y`, and for each of them
`sourceCol` from `0` below `SCALE_RANGE_X`. -/
def windowOffsets (s : Scale) : List (Nat × Nat) :=
  (List.range s.rangeY.toNat).flatMap fun sourceRow =>
    (List.range s.rangeX.toNat).map fun sourceCol => (sourceCol, sourceRow)

/-- The channel accumulator (`destRed`, ...) after the two inner loops. -/
def chanSum (src : ImageData) (s : Scale) (ind : JSNum) (c : Channel) : Int :=
  ((windowOffsets s).map fun o =>
    pxChan c (readPx src.data (readIndex src.width ind o.1 o.2))).sum

/-- The rounded channel average `round(destRed / SCALE_RANGE_SQR)`. -/
def chanAvg (src : ImageData) (s : Scale) (ind : JSNum) (c : Channel) : Int :=
  round (JSNum.div (JSNum.ofInt (chanSum src s ind c)) (JSNum.ofInt s.rangeSqr))

/-- Packing of the four averages:
`(destAlpha << 24) | (destBlue << 16) | (destGreen << 8) | destRed`. -/
def pack (r g b a : Int) : Int := bor (bor (bor (shl a 24) (shl b 16)) (shl g 8)) r

/-- The value stored in `DEST_DATA[destCol + destRow * DEST_WIDTH]`: the body
of the two outer loops of `downsample`. -/
def destPixel (src : ImageData) (destWidth destHeight : Nat)
    (sourceX sourceY sourceWidth sourceHeight : JSNum) (destCol destRow : Nat) : Int :=
  let s := scaleOf destWidth destHeight sourceWidth sourceHeight
  let ind := sourceInd src.width s sourceX sourceY destCol destRow
  pack (chanAvg src s ind Channel.red) (chanAvg src s ind Channel.green)
    (chanAvg src s ind Channel.blue) (chanAvg src s ind Channel.alpha)

/-- Source function `downsample`.  `new ImageData(destWidth, destHeight)`
throws for a zero dimension (`none`); otherwise the two outer loops store
`destPixel` at every index `destCol + destRow * DEST_WIDTH`, each once. -/
def downsample (src : ImageData) (destWidth destHeight : Nat)
    (sourceX sourceY sourceWidth sourceHeight : JSNum) : Option ImageData :=
  if destWidth = 0 ∨ destHeight = 0 then none
  else some
    { width := destWidth
      height := destHeight
      data := List.ofFn fun (i : Fin (destWidth * destHeight)) =>
        destPixel src destWidth destHeight sourceX sourceY sourceWidth sourceHeight
          (i.val % destWidth) (i.val / destWidth) }

/-- Every index read by `downsample`, over all destination pixels (row by row)
and all window offsets, in the order of the reads. -/
def readIndices (src : ImageData) (destWidth destHeight : Nat)
    (sourceX sourceY sourceWidth sourceHeight : JSNum) : List JSNum :=
  let s := scaleOf destWidth destHeight sourceWidth sourceHeight
  (List.range destHeight).flatMap fun destRow =>
    (List.range destWidth).flatMap fun destCol =>
      (windowOffsets s).map fun o =>
        readIndex src.width (sourceInd src.width s sourceX sourceY destCol destRow) o.1 o.2

/-- An index lies inside a buffer of `len` elements: it is an integer `i` with
`0 ≤ i < len`. -/
def InBuffer (len : Nat) : JSNum → Prop
  | JSNum.fin q => q.den = 1 ∧ 0 ≤ q.num ∧ q.num < (len : Int)
  | _ => False

instance (len : Nat) (v : JSNum) : Decidable (InBuffer len v) := by
  cases v <;> unfold InBuffer <;> infer_instance

/-! ## `scaleImageData` -/

/-- The operator `x >> k` on a 32-bit integer `x`. -/
def sar (x : Int) (k : Nat) : Int := x / 2 ^ k

/-- The rectangle `(sourceX, sourceY, sourceWidth, sourceHeight)` that
`scaleImageData` passes to `downsample`. -/
structure Crop where
  x : JSNum
  y : JSNum
  width : JSNum
  height : JSNum
  deriving DecidableEq

/-- The operator `a || b` where `a` is an optional number (`none` is
`undefined`) and `b` a number. -/
def orElse (a : Option JSNum) (b : JSNum) : JSNum :=
  match a with
  | some v => if v.truthy then v else b
  | none => b

/-- The crop computed by `scaleImageData` (lines 150–167) from the source
size, the destination size and the optional offsets. -/
def cropOf (origSourceWidth origSourceHeight destWidth destHeight : Nat)
    (sourceX sourceY : Option JSNum) : Crop :=
  let destRatio := JSNum.div (JSNum.ofNat destWidth) (JSNum.ofNat destHeight)
  let sourceRatio := JSNum.div (JSNum.ofNat origSourceWidth) (JSNum.ofNat origSourceHeight)
  let sourceWidth :=
    if JSNum.gt destRatio sourceRatio then JSNum.ofNat origSourceWidth
    else JSNum.mul (JSNum.ofNat origSourceHeight) destRatio
  let sourceHeight :=
    if JSNum.gt destRatio sourceRatio then JSNum.div (JSNum.ofNat origSourceWidth) destRatio
    else JSNum.ofNat origSourceHeight
  { x := orElse sourceX (JSNum.ofInt (sar (toInt32
      (JSNum.div (JSNum.sub (JSNum.ofNat origSourceWidth) sourceWidth) (JSNum.fin 2))) 0))
    y := orElse sourceY (JSNum.ofInt (sar (toInt32
      (JSNum.div (JSNum.sub (JSNum.ofNat origSourceHeight) sourceHeight) (JSNum.fin 2))) 0))
    width := sourceWidth
    height := sourceHeight }

/-- The containment `x + width <= sourceWidth` of a crop along the x axis. -/
def Crop.containedX (c : Crop) (sourceWidth : Nat) : Prop :=
  match c.x, c.width with
  | JSNum.fin x, JSNum.fin w => x + w ≤ (sourceWidth : ℚ)
  | _, _ => False

/-- The containment `y + height <= sourceHeight` of a crop along the y axis. -/
def Crop.containedY (c : Crop) (sourceHeight : Nat) : Prop :=
  match c.y, c.height with
  | JSNum.fin y, JSNum.fin h => y + h ≤ (sourceHeight : ℚ)
  | _, _ => False

instance (c : Crop) (n : Nat) : Decidable (c.containedX n) := by
  unfold Crop.containedX; split <;> infer_instance

instance (c : Crop) (n : Nat) : Decidable (c.containedY n) := by
  unfold Crop.containedY; split <;> infer_instance

/-- The crop width in the words of the specification (§4.2): the full source
width when `destRatio > sourceRatio`, else `sourceHeight * destRatio`. -/
def specCropWidth (sourceWidth sourceHeight destWidth destHeight : Nat) : ℚ :=
  if (sourceWidth : ℚ) / sourceHeight < (destWidth : ℚ) / destHeight then sourceWidth
  else sourceHeight * ((destWidth : ℚ) / destHeight)

/-- The crop height in the words of the specification (§4.2):
`sourceWidth / destRatio` when `destRatio > sourceRatio`, else the full source
height. -/
def specCropHeight (sourceWidth sourceHeight destWidth destHeight : Nat) : ℚ :=
  if (sourceWidth : ℚ) / sourceHeight < (destWidth : ℚ) / destHeight then
    sourceWidth / ((destWidth : ℚ) / destHeight)
  else sourceHeight

/-- Source function `scaleImageData`. -/
def scaleImageData (imageData : ImageData) (destWidth destHeight : Nat)
    (sourceX sourceY : Option JSNum) : Option ImageData :=
  let crop := cropOf imageData.width imageData.height destWidth destHeight sourceX sourceY
  downsample imageData destWidth destHeight crop.x crop.y crop.width crop.height

/-! ## Argument validation -/

/-- The JavaScript values that matter to `validateArguments`.  Objects carry
an identity. -/
inductive JSValue where
  | undefined
  | null
  | bool (b : Bool)
  | num (n : JSNum)
  | str (s : String)
  | file (id : Nat)
  | htmlImage (id : Nat)
  | htmlVideo (id : Nat)
  | object (id : Nat)
  deriving DecidableEq

/-- Source function `detectSourceType`; `none` is the `undefined` returned when
no test matches. -/
def detectSourceType : JSValue → Option String
  | JSValue.file _ => some "File"
  | JSValue.htmlImage _ => some "HTMLImageElement"
  | JSValue.htmlVideo _ => some "HTMLVideoElement"
  | JSValue.str _ => some "URL"
  | _ => none

/-- Truthiness of the result of `detectSourceType`: `undefined` and the empty
string are falsy. -/
def truthyStr : Option String → Bool
  | some s => decide (s ≠ "")
  | none => false

/-- The test `typeof v === "number"`. -/
def isNumber : JSValue → Bool
  | JSValue.num _ => true
  | _ => false

/-- A `TypeError` with its message. -/
structure TypeError where
  message : String
  deriving DecidableEq

/-- The element `args[i]` of the arguments object, `undefined` beyond its
length. -/
def argAt (args : List JSValue) (i : Nat) : JSValue := args[i]?.getD JSValue.undefined

/-- Source function `validateArguments`; `none` is the `undefined` returned
when every test passes. -/
def validateArguments (args : List JSValue) : Option TypeError :=
  if args.length < 3 then
    some ⟨"3 arguments required, but only " ++ toString args.length ++ " present."⟩
  else if !truthyStr (detectSourceType (argAt args 0)) then
    some ⟨"First argument should be HTMLImageElement, HTMLVideoElement, File of String"⟩
  else if !isNumber (argAt args 1) then
    some ⟨"Second argument should be a number"⟩
  else if !isNumber (argAt args 2) then
    some ⟨"Third argument should be a number"⟩
  else none

/-- How a call of `downscale` leaves its validation step (lines 268–271). -/
inductive Entry where
  | rejected (err : TypeError)
  | proceeds
  deriving DecidableEq

/-- The validation step of `downscale`: `Promise.reject(err)` is returned when
`validateArguments` gives a `TypeError`, otherwise the call goes on. -/
def downscaleEntry (args : List JSValue) : Entry :=
  match validateArguments args with
  | some err => Entry.rejected err
  | none => Entry.proceeds


/-! ## The resampling formula in the words of the specification -/

/-- Round-half-up in the words of the specification: `floor(v + 1/2)`. -/
def specRound (v : ℚ) : Int := ⌊v + 1 / 2⌋

/-- The anchor index in the words of the specification (§4.1, step 1):
`cropX + round(dc/sx) + (cropY + round(dr/sy)) * sourceWidth`. -/
def specAnchor (sourceWidth : Nat) (cropX cropY sx sy : ℚ) (dc dr : Nat) : ℚ :=
  cropX + specRound ((dc : ℚ) / sx) + (cropY + specRound ((dr : ℚ) / sy)) * sourceWidth

/-- The channel sum in the words of the specification (§4.1, step 2): the sum
of channel `c` over the source pixels at the indices
`anchor + col + row * sourceWidth`, `row` in `[0, rangeY)`, `col` in
`[0, rangeX)`. -/
def specChanSum (src : ImageData) (c : Channel) (anchor : ℚ) (rangeX rangeY : Int) : Int :=
  ∑ row in Finset.range rangeY.toNat, ∑ col in Finset.range rangeX.toNat,
    pxChan c (readPx src.data (JSNum.fin (anchor + (col : ℚ) + (row : ℚ) * src.width)))

/-- The output channel in the words of the specification (§4.1, step 3): the
channel sum divided by `rangeX * rangeY`, rounded half up. -/
def specChannel (src : ImageData) (destWidth destHeight : Nat)
    (cropX cropY cropWidth cropHeight : ℚ) (dc dr : Nat) (c : Channel) : Int :=
  let sx := (destWidth : ℚ) / cropWidth
  let sy := (destHeight : ℚ) / cropHeight
  let rangeX := specRound (1 / sx)
  let rangeY := specRound (1 / sy)
  specRound (((specChanSum src c (specAnchor src.width cropX cropY sx sy dc dr)
    rangeX rangeY : Int) : ℚ) / ((rangeX * rangeY : Int) : ℚ))

/-! ## The cache of `createCache` -/

/-- Strict equality `===` on the modelled values: equal values are strictly
equal, except `NaN`, which is not strictly equal to itself.  Objects are
compared by identity, strings and numbers by value. -/
def strictEq (a b : JSValue) : Bool :=
  decide (a = b) && !decide (a = JSValue.num JSNum.nan)

/-- Truthiness (`ToBoolean`) of a value. -/
def JSValue.truthy : JSValue → Bool
  | JSValue.undefined => false
  | JSValue.null => false
  | JSValue.bool b => b
  | JSValue.num n => n.truthy
  | JSValue.str s => decide (s ≠ "")
  | _ => true

/-- The call `keys.indexOf(key)`: the first index whose element is strictly
equal to `key`; `none` stands for the result `-1`. -/
def indexOf (key : JSValue) : List JSValue → Option Nat
  | [] => none
  | k :: ks => if strictEq k key then some 0 else (indexOf key ks).map (· + 1)

/-- An element of the array `values`: the `PENDING` sentinel or a stored
value. -/
inductive Slot where
  | pending
  | ready (value : ImageData)
  deriving DecidableEq

/-- The stored value of a slot read back from `values`, `none` (that is
`undefined`) when the read is past the end of the array. -/
def slotValue : Option Slot → Option ImageData
  | some (Slot.ready v) => some v
  | _ => none

/-- The three arrays closed over by the object that `createCache` returns.
`ρ` is the type of the functions passed as `resolve`; an element `none` of a
subscriber array is `undefined`, and an entry `none` of `subscribes` is the
`undefined` that the setter leaves there after it has called the waiters. -/
structure Cache (ρ : Type) where
  keys : List JSValue
  values : List Slot
  subscribes : List (Option (List (Option ρ)))

/-- One call `resolve(value)` made by the cache; the argument `none` is
`undefined`.  The functions called are taken to return normally and not to
call back into the cache. -/
structure Call (ρ : Type) where
  resolve : ρ
  value : Option ImageData

/-- What a cache method leaves behind: the arrays, the calls of continuations
it made, in order, and its return value (`none` when it throws a
`TypeError`). -/
structure Outcome (ρ α : Type) where
  cache : Cache ρ
  calls : List (Call ρ)
  ret : Option α

/-- Source function `createCache`: the three arrays start empty. -/
def createCache {ρ : Type} : Cache ρ := { keys := [], values := [], subscribes := [] }

/-- The method `get` of the cache.  It returns `undefined` on every path. -/
def Cache.get {ρ : Type} (c : Cache ρ) (key : JSValue) (resolve : Option ρ) :
    Outcome ρ JSValue :=
  match indexOf key c.keys with
  | none => { cache := c, calls := [], ret := some JSValue.undefined }
  | some cacheInd =>
    if c.values[cacheInd]? = some Slot.pending then
      match c.subscribes[cacheInd]? with
      | some (some waiters) =>
        { cache := { c with subscribes := c.subscribes.set cacheInd (some (waiters ++ [resolve])) }
          calls := []
          ret := some JSValue.undefined }
      | _ => { cache := c, calls := [], ret := none }
    else
      match resolve with
      | some f =>
        { cache := c
          calls := [{ resolve := f, value := slotValue c.values[cacheInd]? }]
          ret := some JSValue.undefined }
      | none => { cache := c, calls := [], ret := none }

/-- The method `has` of the cache: `!!~keys.indexOf(key)`. -/
def Cache.has {ρ : Type} (c : Cache ρ) (key : JSValue) : Bool :=
  (indexOf key c.keys).isSome

/-- The method `createSetter` of the cache.  `this.get(key)` is called with one
argument, so `resolve` is `undefined` there.  The return value `some i` is the
setter closed over `cacheInd = i`, `none` the `undefined` of the early
return. -/
def Cache.createSetter {ρ : Type} (c : Cache ρ) (key : JSValue) : Outcome ρ (Option Nat) :=
  let g := c.get key none
  match g.ret with
  | none => { cache := g.cache, calls := g.calls, ret := none }
  | some v =>
    if v.truthy then { cache := g.cache, calls := g.calls, ret := some none }
    else
      { cache :=
          { keys := g.cache.keys ++ [key]
            values := g.cache.values ++ [Slot.pending]
            subscribes := g.cache.subscribes ++ [some []] }
        calls := g.calls
        ret := some (some g.cache.keys.length) }

/-- The `reduce` over a subscriber array inside the setter: the callback calls
each element with `value`, in order; an element that is `undefined` throws
(second component `false`) and ends the iteration. -/
def callWaiters {ρ : Type} (value : ImageData) : List (Option ρ) → List (Call ρ) × Bool
  | [] => ([], true)
  | none :: _ => ([], false)
  | some f :: rest =>
    ({ resolve := f, value := some value } :: (callWaiters value rest).1,
      (callWaiters value rest).2)

/-- The function returned by `createSetter`, closed over `cacheInd`.  The value
is stored first; `reduce` returns its initial value `[]` on an empty array and
the `undefined` of the last callback otherwise. -/
def Cache.invokeSetter {ρ : Type} (c : Cache ρ) (cacheInd : Nat) (value : ImageData) :
    Outcome ρ Unit :=
  match c.subscribes[cacheInd]? with
  | some (some waiters) =>
    if (callWaiters value waiters).2 then
      { cache :=
          { c with
            values := c.values.set cacheInd (Slot.ready value)
            subscribes := c.subscribes.set cacheInd (if waiters.isEmpty then some [] else none) }
        calls := (callWaiters value waiters).1
        ret := some () }
    else
      { cache := { c with values := c.values.set cacheInd (Slot.ready value) }
        calls := (callWaiters value waiters).1
        ret := none }
  | _ =>
    { cache := { c with values := c.values.set cacheInd (Slot.ready value) }
      calls := []
      ret := none }

/-- An operation on the cache: a call of one of its three methods, or a call
of the setter closed over `cacheInd`. -/
inductive CacheOp (ρ : Type) where
  | createSetter (key : JSValue)
  | get (key : JSValue) (resolve : Option ρ)
  | has (key : JSValue)
  | invoke (cacheInd : Nat) (value : ImageData)

/-- The arrays after one operation. -/
def Cache.exec {ρ : Type} (c : Cache ρ) : CacheOp ρ → Cache ρ
  | CacheOp.createSetter key => (c.createSetter key).cache
  | CacheOp.get key resolve => (c.get key resolve).cache
  | CacheOp.has _ => c
  | CacheOp.invoke cacheInd value => (c.invokeSetter cacheInd value).cache

/-- The arrays after a sequence of operations. -/
def Cache.run {ρ : Type} (c : Cache ρ) (ops : List (CacheOp ρ)) : Cache ρ :=
  ops.foldl Cache.exec c

/-- The arrays of a cache have the same length: they are created empty and
extended together. -/
def Cache.WF {ρ : Type} (c : Cache ρ) : Prop :=
  c.values.length = c.keys.length ∧ c.subscribes.length = c.keys.length

/-- The waiters that one operation appends to the subscriber array of `key`
while the entry of `key` is pending: `get(key, resolve)` appends `resolve`, and
`createSetter(key)` appends the `undefined` of its inner `this.get(key)`. -/
def registered {ρ : Type} (key : JSValue) : CacheOp ρ → List (Option ρ)
  | CacheOp.get k resolve => if k = key then [resolve] else []
  | CacheOp.createSetter k => if k = key then [none] else []
  | _ => []

/-- The operation is a call of the setter closed over `cacheInd`. -/
def CacheOp.invokes {ρ : Type} (cacheInd : Nat) : CacheOp ρ → Prop
  | CacheOp.invoke i _ => i = cacheInd
  | _ => False

/-- The entry of `key` is at index `cacheInd`, is pending, and its subscriber
array holds `waiters`. -/
def Cache.PendingAt {ρ : Type} (c : Cache ρ) (key : JSValue) (cacheInd : Nat)
    (waiters : List (Option ρ)) : Prop :=
  c.WF ∧ indexOf key c.keys = some cacheInd ∧ c.values[cacheInd]? = some Slot.pending ∧
    c.subscribes[cacheInd]? = some (some waiters)

/-- The entry of `key` is at index `cacheInd` and holds the value `b`. -/
def Cache.ReadyAt {ρ : Type} (c : Cache ρ) (key : JSValue) (cacheInd : Nat)
    (b : ImageData) : Prop :=
  c.WF ∧ indexOf key c.keys = some cacheInd ∧ c.values[cacheInd]? = some (Slot.ready b)

/-! ## `downscale`: the cache and the acquisitions

Timing (`createTiming`, `timing.mark`, `timing.finish`) only measures and logs;
it is left out.  Loading an image, reading its pixels (`getImageData`) and
encoding the result (`produceResult`) are done by the platform: the model takes
the moment a load callback fires, the pixels read, and the moment the callback
of `produceResult` runs from its environment, as steps.  A callback that throws
(`scaleImageData` does on a zero destination size) ends early in the code; the
model lets such an execution run on, which can only add entries to the records
`acquired` and `delivered`, and each load callback fires at most once. -/

/-- A call of `downscale` that passed validation, as closed over by its
callbacks: a label for the call and its arguments. -/
structure Request where
  id : Nat
  args : List JSValue
  deriving DecidableEq

/-- The argument `source` of a request. -/
def Request.source (r : Request) : JSValue := argAt r.args 0

/-- What a call of `downscale` gives back to its caller. -/
inductive CallResult where
  | rejected (err : TypeError)
  | promise
  | thrown
  deriving DecidableEq

/-- The state that calls of `downscale` share, with a record of what
happened.
* `canvas`: `downscale.canvas` has been created;
* `cache`: `downscale.cache`, `none` until it is created;
* `loading`: the acquisitions whose load callback has not fired yet, each with
  the request that started it and its `setCache` (`some i` is the setter
  closed over `cacheInd = i`, `none` is `undefined`);
* `producing`: the acquisitions whose pixels have been read and whose
  `produceResult` callback has not run yet;
* `started`: the sources for which an acquisition was started, in order;
* `acquired`: for each completed load, the source and the pixels read;
* `delivered`: for each call of `scaleImageData`, the request and the source
  pixels passed in. -/
structure World where
  canvas : Bool
  cache : Option (Cache Request)
  loading : List (Request × Option Nat)
  producing : List (Request × Option Nat × ImageData)
  started : List JSValue
  acquired : List (JSValue × ImageData)
  delivered : List (Request × Option ImageData)

/-- Before the first call: no canvas, no cache, nothing in flight. -/
def World.initial : World :=
  { canvas := false, cache := none, loading := [], producing := [], started := [],
    acquired := [], delivered := [] }

/-- The calls of `scaleImageData` made by the callbacks that the cache
called. -/
def deliveries (calls : List (Call Request)) : List (Request × Option ImageData) :=
  calls.map fun c => (c.resolve, c.value)

/-- Source function `downscale`, called with the arguments `args`; `id` labels
the call.  The part that runs before it returns: validation, creation of the
canvas and the cache, then either `cache.get` with the callback of this
request, or `cache.createSetter` and the start of the acquisition. -/
def downscale (w : World) (id : Nat) (args : List JSValue) : World × CallResult :=
  match validateArguments args with
  | some err => (w, CallResult.rejected err)
  | none =>
    let source := argAt args 0
    let cache := w.cache.getD createCache
    let request : Request := { id := id, args := args }
    if cache.has source then
      let o := cache.get source (some request)
      ({ w with
          canvas := true
          cache := some o.cache
          delivered := w.delivered ++ deliveries o.calls }, CallResult.promise)
    else
      let o := cache.createSetter source
      match o.ret with
      | none => ({ w with canvas := true, cache := some o.cache }, CallResult.thrown)
      | some setCache =>
        match detectSourceType source with
        | some _ =>
          ({ w with
              canvas := true
              cache := some o.cache
              loading := w.loading ++ [(request, setCache)]
              started := w.started ++ [source] }, CallResult.promise)
        | none => ({ w with canvas := true, cache := some o.cache }, CallResult.promise)

/-- The load callback of an acquisition fires (`scaleImgResolve`):
`getImageData` returns `imageData`, `scaleImageData` is called on it and
`produceResult` is started. -/
def World.loaded (w : World) (r : Request) (setCache : Option Nat) (imageData : ImageData) :
    World :=
  if (r, setCache) ∈ w.loading then
    { w with
      loading := w.loading.filter fun e => decide (e ≠ (r, setCache))
      producing := w.producing ++ [(r, setCache, imageData)]
      acquired := w.acquired ++ [(r.source, imageData)]
      delivered := w.delivered ++ [(r, some imageData)] }
  else w

/-- The callback of `produceResult` of an acquisition runs: the promise is
resolved and `setCache(imageData)` is called, which calls the waiters. -/
def World.produced (w : World) (r : Request) (setCache : Option Nat) (imageData : ImageData) :
    World :=
  if (r, setCache, imageData) ∈ w.producing then
    match setCache with
    | some cacheInd =>
      let o := (w.cache.getD createCache).invokeSetter cacheInd imageData
      { w with
        producing := w.producing.filter fun e => decide (e ≠ (r, setCache, imageData))
        cache := some o.cache
        delivered := w.delivered ++ deliveries o.calls }
    | none =>
      { w with producing := w.producing.filter fun e => decide (e ≠ (r, setCache, imageData)) }
  else w

/-- A step of the single-threaded execution. -/
inductive Step where
  | call (id : Nat) (args : List JSValue)
  | loaded (r : Request) (setCache : Option Nat) (imageData : ImageData)
  | produced (r : Request) (setCache : Option Nat) (imageData : ImageData)

/-- The state after one step. -/
def World.step (w : World) : Step → World
  | Step.call id args => (downscale w id args).1
  | Step.loaded r setCache imageData => w.loaded r setCache imageData
  | Step.produced r setCache imageData => w.produced r setCache imageData

/-- The state after a sequence of steps. -/
def World.run (w : World) (steps : List Step) : World := steps.foldl World.step w

/-- The invariant of the execution: the cache arrays are aligned, the keys are
the started sources and are pairwise different, every acquisition in flight
owns a pending entry, waiters of an entry are requests for its key, and every
stored or delivered buffer is the one acquired for its key. -/
structure World.Inv (w : World) : Prop where
  wf : (w.cache.getD createCache).WF
  started_eq : w.started = (w.cache.getD createCache).keys
  nodup : (w.cache.getD createCache).keys.Nodup
  keys_ok : ∀ k ∈ (w.cache.getD createCache).keys, strictEq k k = true
  loading_ok : ∀ e ∈ w.loading, ∃ i : Nat, e.2 = some i ∧
    (w.cache.getD createCache).keys[i]? = some e.1.source ∧
    (w.cache.getD createCache).values[i]? = some Slot.pending ∧
    ∀ a ∈ w.acquired, a.1 ≠ e.1.source
  producing_ok : ∀ p ∈ w.producing, ∃ i : Nat, p.2.1 = some i ∧
    (w.cache.getD createCache).keys[i]? = some p.1.source ∧
    (w.cache.getD createCache).values[i]? = some Slot.pending ∧
    (p.1.source, p.2.2) ∈ w.acquired
  loading_unique : ∀ e1 ∈ w.loading, ∀ e2 ∈ w.loading, e1.1.source = e2.1.source → e1 = e2
  loading_producing : ∀ e ∈ w.loading, ∀ p ∈ w.producing, e.1.source ≠ p.1.source
  producing_unique : ∀ p1 ∈ w.producing, ∀ p2 ∈ w.producing,
    p1.1.source = p2.1.source → p1 = p2
  waiters_ok : ∀ (i : Nat) (ws : List (Option Request)), (w.cache.getD createCache).subscribes[i]? = some (some ws) →
    ∀ x ∈ ws, ∃ rq : Request, x = some rq ∧
      (w.cache.getD createCache).keys[i]? = some rq.source
  pending_array : ∀ i : Nat, (w.cache.getD createCache).values[i]? = some Slot.pending →
    ∃ ws, (w.cache.getD createCache).subscribes[i]? = some (some ws)
  ready_ok : ∀ (i : Nat) (b : ImageData), (w.cache.getD createCache).values[i]? = some (Slot.ready b) →
    ∃ k, (w.cache.getD createCache).keys[i]? = some k ∧ (k, b) ∈ w.acquired
  acquired_fun : ∀ a1 ∈ w.acquired, ∀ a2 ∈ w.acquired, a1.1 = a2.1 → a1.2 = a2.2
  acquired_keys : ∀ a ∈ w.acquired, a.1 ∈ (w.cache.getD createCache).keys
  delivered_ok : ∀ d ∈ w.delivered, ∃ b, d.2 = some b ∧ (d.1.source, b) ∈ w.acquired

/-! ## Arithmetic of the 32-bit operators -/

theorem wrapInt32_of_range {z : Int} (h1 : -2147483648 ≤ z) (h2 : z < 2147483648) :
    wrapInt32 z = z := by
  unfold wrapInt32; omega

theorem wrapInt32_range (z : Int) : -2147483648 ≤ wrapInt32 z ∧ wrapInt32 z < 2147483648 := by
  unfold wrapInt32; omega

theorem truncQ_of_nonneg {q : ℚ} (h : 0 ≤ q) : truncQ q = ⌊q⌋ := by
  unfold truncQ
  rw [Rat.floor_def]
  exact Int.tdiv_eq_ediv (Rat.num_nonneg.mpr h) (Int.ofNat_nonneg _)

theorem round_fin (q : ℚ) :
    Downscale.round (JSNum.fin q) = wrapInt32 (truncQ (q + 1 / 2)) := by
  have h := wrapInt32_range (truncQ (q + 1 / 2))
  simp only [Downscale.round, JSNum.add, toInt32, shl, pow_zero, mul_one]
  exact wrapInt32_of_range h.1 h.2

theorem round_fin_of_nonneg {q : ℚ} (h0 : 0 ≤ q + 1 / 2) (h1 : ⌊q + 1 / 2⌋ < 2147483648) :
    Downscale.round (JSNum.fin q) = ⌊q + 1 / 2⌋ := by
  rw [round_fin, truncQ_of_nonneg h0]
  exact wrapInt32_of_range (by have := Int.floor_nonneg.mpr h0; omega) h1

theorem round_natCast {n : Nat} (h : n < 2147483648) :
    Downscale.round (JSNum.fin (n : ℚ)) = (n : Int) := by
  have hf : ⌊(n : ℚ) + 1 / 2⌋ = (n : Int) := by
    rw [Int.floor_eq_iff]; push_cast; constructor <;> linarith
  rw [round_fin_of_nonneg (by positivity) (by rw [hf]; exact_mod_cast h), hf]

theorem round_nonfinite_posInf : Downscale.round JSNum.posInf = 0 := by decide!
theorem round_nonfinite_negInf : Downscale.round JSNum.negInf = 0 := by decide!
theorem round_nonfinite_nan : Downscale.round JSNum.nan = 0 := by decide!

/-! ## Channels and packing -/

theorem pxRed_some (p : Int) : pxRed (some p) = p % 256 := by
  simp only [pxRed, pxInt32, Option.getD_some, ushr, shl, wrapUint32, wrapInt32]
  norm_num
  omega

theorem pxGreen_some (p : Int) : pxGreen (some p) = p / 256 % 256 := by
  simp only [pxGreen, pxInt32, Option.getD_some, ushr, shl, wrapUint32, wrapInt32]
  norm_num
  omega

theorem pxBlue_some (p : Int) : pxBlue (some p) = p / 65536 % 256 := by
  simp only [pxBlue, pxInt32, Option.getD_some, ushr, shl, wrapUint32, wrapInt32]
  norm_num
  omega

theorem pxAlpha_some (p : Int) : pxAlpha (some p) = p / 16777216 % 256 := by
  simp only [pxAlpha, pxInt32, Option.getD_some, ushr, wrapUint32]
  norm_num
  omega

theorem pxChan_none (c : Channel) : pxChan c none = 0 := by
  cases c <;> decide!

theorem pxChan_range (c : Channel) (px : Option Int) : 0 ≤ pxChan c px ∧ pxChan c px ≤ 255 := by
  cases px with
  | none => rw [pxChan_none]; omega
  | some p =>
    cases c
    · show 0 ≤ pxRed (some p) ∧ pxRed (some p) ≤ 255
      rw [pxRed_some]; omega
    · show 0 ≤ pxGreen (some p) ∧ pxGreen (some p) ≤ 255
      rw [pxGreen_some]; omega
    · show 0 ≤ pxBlue (some p) ∧ pxBlue (some p) ≤ 255
      rw [pxBlue_some]; omega
    · show 0 ≤ pxAlpha (some p) ∧ pxAlpha (some p) ≤ 255
      rw [pxAlpha_some]; omega

theorem wrapUint32_lt (z : Int) : wrapUint32 z < 4294967296 := by
  unfold wrapUint32; omega

theorem wrapUint32_wrapInt32 (z : Int) : wrapUint32 (wrapInt32 z) = wrapUint32 z := by
  unfold wrapUint32 wrapInt32; omega

theorem wrapUint32_natCast {n : Nat} (h : n < 4294967296) : wrapUint32 (n : Int) = n := by
  unfold wrapUint32; omega

theorem wrapUint32_bor (x y : Int) : wrapUint32 (bor x y) = wrapUint32 x ||| wrapUint32 y := by
  have h : wrapUint32 x ||| wrapUint32 y < 2 ^ 32 :=
    Nat.or_lt_two_pow (wrapUint32_lt x) (wrapUint32_lt y)
  unfold bor
  rw [wrapUint32_wrapInt32, wrapUint32_natCast (by simpa using h)]

theorem bor_range (x y : Int) : -2147483648 ≤ bor x y ∧ bor x y < 2147483648 := by
  unfold bor; exact wrapInt32_range _

theorem wrapInt32_wrapUint32 {z : Int} (h : -2147483648 ≤ z ∧ z < 2147483648) :
    wrapInt32 (wrapUint32 z : Int) = z := by
  unfold wrapInt32 wrapUint32; omega

theorem or_bytes (A B G R : Nat) (hB : B < 256) (hG : G < 256) (hR : R < 256) :
    ((A * 16777216 ||| B * 65536) ||| G * 256) ||| R
      = A * 16777216 + B * 65536 + G * 256 + R := by
  have h1 : A * 16777216 ||| B * 65536 = 2 ^ 16 * (256 * A + B) := by
    have := Nat.mul_add_lt_is_or (i := 24) (b := B * 65536) (by omega) A
    have e : A * 16777216 = 2 ^ 24 * A := by omega
    rw [e, ← this]; omega
  have h2 : 2 ^ 16 * (256 * A + B) ||| G * 256 = 2 ^ 8 * (65536 * A + 256 * B + G) := by
    have := Nat.mul_add_lt_is_or (i := 16) (b := G * 256) (by omega) (256 * A + B)
    rw [← this]; omega
  have h3 : 2 ^ 8 * (65536 * A + 256 * B + G) ||| R
      = 2 ^ 8 * (65536 * A + 256 * B + G) + R :=
    (Nat.mul_add_lt_is_or (i := 8) (b := R) (by omega) _).symm
  rw [h1, h2, h3]; omega

theorem pack_eq {r g b a : Int} (hr : 0 ≤ r ∧ r ≤ 255) (hg : 0 ≤ g ∧ g ≤ 255)
    (hb : 0 ≤ b ∧ b ≤ 255) (ha : 0 ≤ a ∧ a ≤ 255) :
    pack r g b a = wrapInt32 (a * 16777216 + b * 65536 + g * 256 + r) := by
  have hU : wrapUint32 (pack r g b a)
      = a.toNat * 16777216 + b.toNat * 65536 + g.toNat * 256 + r.toNat := by
    unfold pack
    rw [wrapUint32_bor, wrapUint32_bor, wrapUint32_bor]
    have e1 : wrapUint32 (shl a 24) = a.toNat * 16777216 := by
      unfold shl; rw [wrapUint32_wrapInt32]; unfold wrapUint32; norm_num; omega
    have e2 : wrapUint32 (shl b 16) = b.toNat * 65536 := by
      unfold shl; rw [wrapUint32_wrapInt32]; unfold wrapUint32; norm_num; omega
    have e3 : wrapUint32 (shl g 8) = g.toNat * 256 := by
      unfold shl; rw [wrapUint32_wrapInt32]; unfold wrapUint32; norm_num; omega
    have e4 : wrapUint32 r = r.toNat := by unfold wrapUint32; omega
    rw [e1, e2, e3, e4]
    exact or_bytes _ _ _ _ (by omega) (by omega) (by omega)
  have hP : pack r g b a = wrapInt32 (wrapUint32 (pack r g b a) : Int) := by
    have hr : -2147483648 ≤ pack r g b a ∧ pack r g b a < 2147483648 := by
      unfold pack; exact bor_range _ _
    exact (wrapInt32_wrapUint32 hr).symm
  have hC : ((a.toNat * 16777216 + b.toNat * 65536 + g.toNat * 256 + r.toNat : Nat) : Int)
      = a * 16777216 + b * 65536 + g * 256 + r := by omega
  rw [hP, hU, hC]

theorem pxChan_pack {r g b a : Int} (hr : 0 ≤ r ∧ r ≤ 255) (hg : 0 ≤ g ∧ g ≤ 255)
    (hb : 0 ≤ b ∧ b ≤ 255) (ha : 0 ≤ a ∧ a ≤ 255) :
    pxChan Channel.red (some (pack r g b a)) = r ∧
    pxChan Channel.green (some (pack r g b a)) = g ∧
    pxChan Channel.blue (some (pack r g b a)) = b ∧
    pxChan Channel.alpha (some (pack r g b a)) = a := by
  rw [pack_eq hr hg hb ha]
  refine ⟨?_, ?_, ?_, ?_⟩
  · show pxRed _ = r
    rw [pxRed_some]; unfold wrapInt32; omega
  · show pxGreen _ = g
    rw [pxGreen_some]; unfold wrapInt32; omega
  · show pxBlue _ = b
    rw [pxBlue_some]; unfold wrapInt32; omega
  · show pxAlpha _ = a
    rw [pxAlpha_some]; unfold wrapInt32; omega

theorem pack_channels {p : Int} (h1 : -2147483648 ≤ p) (h2 : p < 2147483648) :
    pack (pxRed (some p)) (pxGreen (some p)) (pxBlue (some p)) (pxAlpha (some p)) = p := by
  have e := pack_eq (pxChan_range Channel.red (some p)) (pxChan_range Channel.green (some p))
    (pxChan_range Channel.blue (some p)) (pxChan_range Channel.alpha (some p))
  simp only [pxChan] at e
  rw [e, pxRed_some, pxGreen_some, pxBlue_some, pxAlpha_some]
  unfold wrapInt32; omega

/-! ## Finite arithmetic -/

theorem div_fin {a b : ℚ} (hb : b ≠ 0) : JSNum.div (JSNum.fin a) (JSNum.fin b) = JSNum.fin (a / b) := by
  simp [JSNum.div, hb]

theorem round_intCast {z : Int} (h0 : 0 ≤ z) (h1 : z < 2147483648) :
    Downscale.round (JSNum.fin (z : ℚ)) = z := by
  obtain ⟨n, rfl⟩ := Int.eq_ofNat_of_zero_le h0
  have := round_natCast (n := n) (by omega)
  simpa using this

theorem readPx_natCast (data : List Int) (n : Nat) :
    readPx data (JSNum.fin (n : ℚ)) = data[n]? := by
  simp [readPx]

/-! ## `downsample`: the returned buffer -/

theorem downsample_some (src : ImageData) {destWidth destHeight : Nat}
    (sourceX sourceY sourceWidth sourceHeight : JSNum)
    (hw : 0 < destWidth) (hh : 0 < destHeight) :
    ∃ dest, downsample src destWidth destHeight sourceX sourceY sourceWidth sourceHeight
        = some dest ∧
      dest.width = destWidth ∧ dest.height = destHeight ∧
      dest.data.length = destWidth * destHeight ∧
      ∀ destCol destRow, destCol < destWidth → destRow < destHeight →
        dest.data[destCol + destRow * destWidth]? =
          some (destPixel src destWidth destHeight sourceX sourceY sourceWidth sourceHeight
            destCol destRow) := by
  refine ⟨{ width := destWidth, height := destHeight,
             data := List.ofFn fun (i : Fin (destWidth * destHeight)) =>
               destPixel src destWidth destHeight sourceX sourceY sourceWidth sourceHeight
                 (i.val % destWidth) (i.val / destWidth) }, ?_, rfl, rfl, ?_, ?_⟩
  · unfold downsample
    rw [if_neg (by omega)]
  · simp
  · intro dc dr hdc hdr
    have hlt : dc + dr * destWidth < destWidth * destHeight := by
      calc dc + dr * destWidth < destWidth + dr * destWidth := by omega
        _ = destWidth * (dr + 1) := by ring
        _ ≤ destWidth * destHeight := Nat.mul_le_mul_left _ hdr
    have h1 : (dc + dr * destWidth) % destWidth = dc := by
      rw [Nat.add_mul_mod_self_right, Nat.mod_eq_of_lt hdc]
    have h2 : (dc + dr * destWidth) / destWidth = dr := by
      rw [Nat.add_mul_div_right _ _ hw, Nat.div_eq_of_lt hdc, Nat.zero_add]
    simp [List.getElem?_ofFn, hlt, h1, h2]

/-! ## Crops that are an integer multiple of the destination -/

theorem scaleOf_multiple {dw dh : Nat} (kx ky : Nat) (hdw : 0 < dw) (hdh : 0 < dh)
    (hkx : 0 < kx) (hky : 0 < ky) (bx : kx < 2147483648) (bY : ky < 2147483648) :
    scaleOf dw dh (JSNum.ofNat (kx * dw)) (JSNum.ofNat (ky * dh)) =
      { factorX := JSNum.fin (1 / (kx : ℚ)), factorY := JSNum.fin (1 / (ky : ℚ)),
        rangeX := (kx : Int), rangeY := (ky : Int), rangeSqr := (kx : Int) * (ky : Int) } := by
  have hdw' : (dw : ℚ) ≠ 0 := by positivity
  have hdh' : (dh : ℚ) ≠ 0 := by positivity
  have hkx' : (kx : ℚ) ≠ 0 := by positivity
  have hky' : (ky : ℚ) ≠ 0 := by positivity
  have ex : (dw : ℚ) / ((kx * dw : ℕ) : ℚ) = 1 / (kx : ℚ) := by
    push_cast; field_simp; ring
  have ey : (dh : ℚ) / ((ky * dh : ℕ) : ℚ) = 1 / (ky : ℚ) := by
    push_cast; field_simp; ring
  have fx : JSNum.div (JSNum.ofNat dw) (JSNum.ofNat (kx * dw)) = JSNum.fin (1 / (kx : ℚ)) := by
    unfold JSNum.ofNat
    rw [div_fin (by push_cast; positivity), ex]
  have fy : JSNum.div (JSNum.ofNat dh) (JSNum.ofNat (ky * dh)) = JSNum.fin (1 / (ky : ℚ)) := by
    unfold JSNum.ofNat
    rw [div_fin (by push_cast; positivity), ey]
  have rx : Downscale.round (JSNum.div (JSNum.fin 1) (JSNum.fin (1 / (kx : ℚ)))) = (kx : Int) := by
    rw [div_fin (by positivity), one_div_one_div, round_natCast bx]
  have ry : Downscale.round (JSNum.div (JSNum.fin 1) (JSNum.fin (1 / (ky : ℚ)))) = (ky : Int) := by
    rw [div_fin (by positivity), one_div_one_div, round_natCast bY]
  unfold scaleOf
  simp only [fx, fy, rx, ry]

theorem sourceInd_multiple (W x y dc dr : Nat) (kx ky : Nat) (s : Scale)
    (hfx : s.factorX = JSNum.fin (1 / (kx : ℚ))) (hfy : s.factorY = JSNum.fin (1 / (ky : ℚ)))
    (hkx : 0 < kx) (hky : 0 < ky)
    (h1 : dc * kx < 2147483648) (h2 : dr * ky < 2147483648) :
    sourceInd W s (JSNum.ofNat x) (JSNum.ofNat y) dc dr
      = JSNum.fin ((x + dc * kx + (y + dr * ky) * W : ℕ) : ℚ) := by
  have hkx' : (kx : ℚ) ≠ 0 := by positivity
  have hky' : (ky : ℚ) ≠ 0 := by positivity
  have rx : Downscale.round (JSNum.div (JSNum.ofNat dc) (JSNum.fin (1 / (kx : ℚ))))
      = ((dc * kx : ℕ) : Int) := by
    unfold JSNum.ofNat
    rw [div_fin (by positivity)]
    have e : (dc : ℚ) / (1 / (kx : ℚ)) = ((dc * kx : ℕ) : ℚ) := by
      push_cast; field_simp
    rw [e, round_natCast h1]
  have ry : Downscale.round (JSNum.div (JSNum.ofNat dr) (JSNum.fin (1 / (ky : ℚ))))
      = ((dr * ky : ℕ) : Int) := by
    unfold JSNum.ofNat
    rw [div_fin (by positivity)]
    have e : (dr : ℚ) / (1 / (ky : ℚ)) = ((dr * ky : ℕ) : ℚ) := by
      push_cast; field_simp
    rw [e, round_natCast h2]
  unfold sourceInd
  rw [hfx, hfy, rx, ry]
  simp only [JSNum.ofNat, JSNum.ofInt, JSNum.add, JSNum.mul]
  push_cast
  rfl

theorem readIndex_natCast (W n c r : Nat) :
    readIndex W (JSNum.fin (n : ℚ)) c r = JSNum.fin ((n + c + r * W : ℕ) : ℚ) := by
  simp only [readIndex, JSNum.ofNat, JSNum.add, JSNum.mul]
  push_cast
  rfl

theorem index_lt_of_contained {W H col row : Nat} (hc : col < W) (hr : row < H) :
    col + row * W < W * H := by
  calc col + row * W < W + row * W := by omega
    _ = W * (row + 1) := by ring
    _ ≤ W * H := Nat.mul_le_mul_left _ hr

theorem chanAvg_one (src : ImageData) (s : Scale) (ind : JSNum) (c : Channel)
    (hx : s.rangeX = 1) (hy : s.rangeY = 1) (hs : s.rangeSqr = 1) :
    chanAvg src s ind c = pxChan c (readPx src.data (readIndex src.width ind 0 0)) := by
  have hr := pxChan_range c (readPx src.data (readIndex src.width ind 0 0))
  unfold chanAvg chanSum windowOffsets
  have r1 : List.range 1 = [0] := rfl
  rw [hx, hy, hs]
  simp only [Int.toNat_one, r1, List.flatMap_cons, List.flatMap_nil,
    List.map_cons, List.map_nil, List.append_nil, List.sum_cons, List.sum_nil, add_zero]
  unfold JSNum.ofInt
  rw [div_fin (by norm_num)]
  simp only [Int.cast_one, div_one]
  exact round_intCast hr.1 (by omega)

/-- C1. With the destination size equal to the crop size, `downsample` is the
identity on the crop: the returned buffer has the crop's dimensions and its
pixel at `(dc, dr)` is the source pixel at `(cropX + dc, cropY + dr)`. -/
theorem downsample_identity_on_crop (src : ImageData)
    (cropX cropY cropWidth cropHeight : Nat)
    (hwf : src.WF) (hsize : src.data.length < 2147483648)
    (hw : 0 < cropWidth) (hh : 0 < cropHeight)
    (hx : cropX + cropWidth ≤ src.width) (hy : cropY + cropHeight ≤ src.height) :
    ∃ dest, downsample src cropWidth cropHeight (JSNum.ofNat cropX) (JSNum.ofNat cropY)
        (JSNum.ofNat cropWidth) (JSNum.ofNat cropHeight) = some dest ∧
      dest.width = cropWidth ∧ dest.height = cropHeight ∧
      dest.data.length = cropWidth * cropHeight ∧
      ∀ dc dr, dc < cropWidth → dr < cropHeight →
        ∃ p, src.data[(cropX + dc) + (cropY + dr) * src.width]? = some p ∧
          dest.data[dc + dr * cropWidth]? = some p := by
  obtain ⟨dest, hd, hdw, hdh, hlen, hpx⟩ :=
    downsample_some src (JSNum.ofNat cropX) (JSNum.ofNat cropY)
      (JSNum.ofNat cropWidth) (JSNum.ofNat cropHeight) hw hh
  refine ⟨dest, hd, hdw, hdh, hlen, ?_⟩
  intro dc dr hdc hdr
  have hlt : (cropX + dc) + (cropY + dr) * src.width < src.data.length := by
    rw [hwf.1]
    exact index_lt_of_contained (by omega) (by omega)
  have hWpos : 0 < src.width := by omega
  have hle : (cropY + dr) * src.width ≤ (cropX + dc) + (cropY + dr) * src.width := by omega
  have hdr' : dr ≤ (cropY + dr) * src.width :=
    le_trans (by omega) (Nat.le_mul_of_pos_right (cropY + dr) hWpos)
  refine ⟨src.data[(cropX + dc) + (cropY + dr) * src.width], ?_, ?_⟩
  · exact List.getElem?_eq_getElem hlt
  · rw [hpx dc dr hdc hdr]
    have hs := scaleOf_multiple 1 1 hw hh (by norm_num) (by norm_num)
      (by norm_num) (by norm_num)
    simp only [Nat.one_mul] at hs
    have hind := sourceInd_multiple src.width cropX cropY dc dr 1 1
      (scaleOf cropWidth cropHeight (JSNum.ofNat cropWidth) (JSNum.ofNat cropHeight))
      (by rw [hs]) (by rw [hs]) (by norm_num) (by norm_num) (by omega) (by omega)
    have hread : readPx src.data (readIndex src.width
        (sourceInd src.width
          (scaleOf cropWidth cropHeight (JSNum.ofNat cropWidth) (JSNum.ofNat cropHeight))
          (JSNum.ofNat cropX) (JSNum.ofNat cropY) dc dr) 0 0)
        = some src.data[(cropX + dc) + (cropY + dr) * src.width] := by
      rw [hind, readIndex_natCast, readPx_natCast]
      simp only [Nat.mul_one, Nat.zero_mul, Nat.add_zero]
      exact List.getElem?_eq_getElem hlt
    have hp := hwf.2 _ (List.getElem_mem hlt)
    unfold destPixel
    simp only
    rw [chanAvg_one _ _ _ _ (by rw [hs]; rfl) (by rw [hs]; rfl) (by rw [hs]; rfl),
      chanAvg_one _ _ _ _ (by rw [hs]; rfl) (by rw [hs]; rfl) (by rw [hs]; rfl),
      chanAvg_one _ _ _ _ (by rw [hs]; rfl) (by rw [hs]; rfl) (by rw [hs]; rfl),
      chanAvg_one _ _ _ _ (by rw [hs]; rfl) (by rw [hs]; rfl) (by rw [hs]; rfl), hread]
    exact congrArg some (pack_channels hp.1 hp.2)

/-- C1 (witness). A 3×2 source with the 2×1 crop at `(1, 1)`. -/
theorem downsample_identity_on_crop_witness :
    ∃ dest, downsample ⟨3, 2, [10, -20, 30, 40, -50, 60]⟩ 2 1 (JSNum.ofNat 1) (JSNum.ofNat 1)
        (JSNum.ofNat 2) (JSNum.ofNat 1) = some dest ∧
      dest.width = 2 ∧ dest.height = 1 ∧ dest.data.length = 2 * 1 ∧
      ∀ dc dr, dc < 2 → dr < 1 →
        ∃ p, (⟨3, 2, [10, -20, 30, 40, -50, 60]⟩ : ImageData).data[(1 + dc) + (1 + dr) * 3]?
            = some p ∧
          dest.data[dc + dr * 2]? = some p :=
  downsample_identity_on_crop ⟨3, 2, [10, -20, 30, 40, -50, 60]⟩ 1 1 2 1
    (by decide) (by decide) (by decide) (by decide) (by decide) (by decide)

/-! ## The sampling window and the channel averages -/

theorem length_flatMap_const {α β : Type} (l : List α) (f : α → List β) (n : Nat)
    (h : ∀ a, (f a).length = n) : (l.flatMap f).length = l.length * n := by
  induction l with
  | nil => simp
  | cons a t ih => simp [List.flatMap_cons, ih, h, Nat.succ_mul, Nat.add_comm]

theorem windowOffsets_length (s : Scale) :
    (windowOffsets s).length = s.rangeY.toNat * s.rangeX.toNat := by
  unfold windowOffsets
  rw [length_flatMap_const _ _ s.rangeX.toNat (by intro a; simp)]
  simp

theorem windowOffsets_of_zero (s : Scale) (h : s.rangeX = 0 ∨ s.rangeY = 0) :
    windowOffsets s = [] := by
  apply List.eq_nil_of_length_eq_zero
  rw [windowOffsets_length]
  rcases h with h | h <;> simp [h]

theorem sum_bytes_bounds (l : List Int) (h : ∀ v ∈ l, 0 ≤ v ∧ v ≤ 255) :
    0 ≤ l.sum ∧ l.sum ≤ 255 * (l.length : Int) := by
  induction l with
  | nil => simp
  | cons a t ih =>
    have ha := h a (List.mem_cons_self a t)
    have ht := ih (fun v hv => h v (List.mem_cons_of_mem a hv))
    simp only [List.sum_cons, List.length_cons]
    push_cast
    omega

theorem chanSum_bounds (src : ImageData) (s : Scale) (ind : JSNum) (c : Channel) :
    0 ≤ chanSum src s ind c ∧
      chanSum src s ind c ≤ 255 * ((s.rangeY.toNat * s.rangeX.toNat : Nat) : Int) := by
  have h := sum_bytes_bounds
    ((windowOffsets s).map fun o =>
      pxChan c (readPx src.data (readIndex src.width ind o.1 o.2)))
    (by
      intro v hv
      obtain ⟨o, _, rfl⟩ := List.mem_map.mp hv
      exact pxChan_range c _)
  rw [List.length_map, windowOffsets_length] at h
  exact h

theorem round_fin_byte {q : ℚ} (h0 : 0 ≤ q) (h1 : q ≤ 255) :
    0 ≤ Downscale.round (JSNum.fin q) ∧ Downscale.round (JSNum.fin q) ≤ 255 := by
  have hf : ⌊q + 1 / 2⌋ < 256 := by
    rw [Int.floor_lt]; push_cast; linarith
  have hg : 0 ≤ ⌊q + 1 / 2⌋ := Int.floor_nonneg.mpr (by linarith)
  rw [round_fin_of_nonneg (by linarith) (by omega)]
  omega

theorem round_div_zero (a : ℚ) :
    Downscale.round (JSNum.div (JSNum.fin a) (JSNum.fin 0)) = 0 := by
  by_cases ha : a = 0
  · simp only [JSNum.div, ha, if_true]
    exact round_nonfinite_nan
  · by_cases hp : 0 < a
    · simp only [JSNum.div, ha, hp, if_true, if_false, JSNum.signedInf, decide_True]
      exact round_nonfinite_posInf
    · simp only [JSNum.div, ha, hp, if_true, if_false, JSNum.signedInf, decide_False]
      exact round_nonfinite_negInf

theorem chanAvg_range (src : ImageData) (s : Scale) (ind : JSNum) (c : Channel)
    (hs : s.rangeSqr = s.rangeX * s.rangeY) :
    0 ≤ chanAvg src s ind c ∧ chanAvg src s ind c ≤ 255 := by
  have hb := chanSum_bounds src s ind c
  unfold chanAvg JSNum.ofInt
  by_cases hz : s.rangeSqr = 0
  · rw [hz, Int.cast_zero, round_div_zero]; omega
  · have hz' : (s.rangeSqr : ℚ) ≠ 0 := by exact_mod_cast hz
    rw [div_fin hz']
    by_cases hpos : 0 < s.rangeX ∧ 0 < s.rangeY
    · have hlen : ((s.rangeY.toNat * s.rangeX.toNat : Nat) : Int) = s.rangeSqr := by
        rw [hs]; push_cast
        rw [Int.toNat_of_nonneg hpos.1.le, Int.toNat_of_nonneg hpos.2.le, mul_comm]
      rw [hlen] at hb
      have hsq : (0 : ℚ) < (s.rangeSqr : ℚ) := by
        rw [hs]; exact_mod_cast Int.mul_pos hpos.1 hpos.2
      apply round_fin_byte
      · exact div_nonneg (by exact_mod_cast hb.1) hsq.le
      · rw [div_le_iff₀ hsq]; exact_mod_cast hb.2
    · have hlen : s.rangeY.toNat * s.rangeX.toNat = 0 := by
        rcases not_and_or.mp hpos with h | h
        · have e : s.rangeX.toNat = 0 := Int.toNat_of_nonpos (by omega)
          rw [e, Nat.mul_zero]
        · have e : s.rangeY.toNat = 0 := Int.toNat_of_nonpos (by omega)
          rw [e, Nat.zero_mul]
      rw [hlen] at hb
      have h0 : chanSum src s ind c = 0 := by omega
      rw [h0, Int.cast_zero, zero_div]
      exact round_fin_byte le_rfl (by norm_num)

theorem scaleOf_rangeSqr (dw dh : Nat) (w h : JSNum) :
    (scaleOf dw dh w h).rangeSqr = (scaleOf dw dh w h).rangeX * (scaleOf dw dh w h).rangeY :=
  rfl

theorem pxChan_destPixel (src : ImageData) (dw dh : Nat) (x y w h : JSNum) (dc dr : Nat)
    (c : Channel) :
    pxChan c (some (destPixel src dw dh x y w h dc dr)) =
      chanAvg src (scaleOf dw dh w h) (sourceInd src.width (scaleOf dw dh w h) x y dc dr) c := by
  have hrange := fun c' => chanAvg_range src (scaleOf dw dh w h)
    (sourceInd src.width (scaleOf dw dh w h) x y dc dr) c' (scaleOf_rangeSqr _ _ _ _)
  have hp := pxChan_pack (hrange Channel.red) (hrange Channel.green) (hrange Channel.blue)
    (hrange Channel.alpha)
  unfold destPixel
  cases c
  · exact hp.1
  · exact hp.2.1
  · exact hp.2.2.1
  · exact hp.2.2.2

theorem downsample_data {src : ImageData} {dw dh : Nat} {x y w h : JSNum} {dest : ImageData}
    (hd : downsample src dw dh x y w h = some dest) :
    0 < dw ∧ 0 < dh ∧ dest.data.length = dw * dh ∧
      ∀ dc dr, dc < dw → dr < dh →
        dest.data[dc + dr * dw]? = some (destPixel src dw dh x y w h dc dr) := by
  have hpos : 0 < dw ∧ 0 < dh := by
    by_contra hc
    have hz : dw = 0 ∨ dh = 0 := by omega
    unfold downsample at hd
    rw [if_pos hz] at hd
    exact Option.noConfusion hd
  obtain ⟨d', hd', -, -, hlen, hpx⟩ := downsample_some src x y w h hpos.1 hpos.2
  rw [hd] at hd'
  cases hd'
  exact ⟨hpos.1, hpos.2, hlen, hpx⟩

/-- C3 (failing input). A well-formed 3×3 source with the full image as crop,
downsampled to 2×2: the reads reach the indices 9, 10, 11 and 12, outside the
buffer of 9 pixels.  Likewise for a 1000×500 source scaled to 200×200 (crop
500×500 at `(250, 0)`): destination pixel `(0, 199)` reads index 500250 of a
buffer of 500000 pixels. -/
theorem downsample_reads_outside_buffer :
    (⟨3, 3, [-1, -1, -1, -1, -1, -1, -1, -1, -1]⟩ : ImageData).WF ∧
    0 + 3 ≤ (⟨3, 3, [-1, -1, -1, -1, -1, -1, -1, -1, -1]⟩ : ImageData).width ∧
    0 + 3 ≤ (⟨3, 3, [-1, -1, -1, -1, -1, -1, -1, -1, -1]⟩ : ImageData).height ∧
    readIndices ⟨3, 3, [-1, -1, -1, -1, -1, -1, -1, -1, -1]⟩ 2 2
        (JSNum.ofNat 0) (JSNum.ofNat 0) (JSNum.ofNat 3) (JSNum.ofNat 3)
      = [JSNum.fin 0, JSNum.fin 1, JSNum.fin 3, JSNum.fin 4,
         JSNum.fin 2, JSNum.fin 3, JSNum.fin 5, JSNum.fin 6,
         JSNum.fin 6, JSNum.fin 7, JSNum.fin 9, JSNum.fin 10,
         JSNum.fin 8, JSNum.fin 9, JSNum.fin 11, JSNum.fin 12] ∧
    (∃ i ∈ readIndices ⟨3, 3, [-1, -1, -1, -1, -1, -1, -1, -1, -1]⟩ 2 2
        (JSNum.ofNat 0) (JSNum.ofNat 0) (JSNum.ofNat 3) (JSNum.ofNat 3),
      ¬ InBuffer 9 i) ∧
    cropOf 1000 500 200 200 none none
      = ⟨JSNum.fin 250, JSNum.fin 0, JSNum.fin 500, JSNum.fin 500⟩ ∧
    (0, 2) ∈ windowOffsets (scaleOf 200 200 (JSNum.fin 500) (JSNum.fin 500)) ∧
    readIndex 1000 (sourceInd 1000 (scaleOf 200 200 (JSNum.fin 500) (JSNum.fin 500))
        (JSNum.fin 250) (JSNum.fin 0) 0 199) 0 2 = JSNum.fin 500250 ∧
    ¬ InBuffer (1000 * 500) (JSNum.fin 500250) := by
  decide!

/-- C4 (failing input). A uniform opaque-white 3×3 source with the full image
as crop, downsampled to 2×2 (also through `scaleImageData`): the two pixels of
the second row come out as `0x80808080` and `0x40404040`, not white.  The
uniform 4×4 source downsampled to 2×2 stays uniform. -/
theorem downsample_uniform_not_preserved :
    downsample ⟨3, 3, [-1, -1, -1, -1, -1, -1, -1, -1, -1]⟩ 2 2
        (JSNum.ofNat 0) (JSNum.ofNat 0) (JSNum.ofNat 3) (JSNum.ofNat 3)
      = some ⟨2, 2, [-1, -1, -2139062144, 1077952576]⟩ ∧
    scaleImageData ⟨3, 3, [-1, -1, -1, -1, -1, -1, -1, -1, -1]⟩ 2 2 none none
      = some ⟨2, 2, [-1, -1, -2139062144, 1077952576]⟩ ∧
    scaleImageData ⟨4, 4, List.replicate 16 (-1)⟩ 2 2 none none
      = some ⟨2, 2, [-1, -1, -1, -1]⟩ := by
  decide!

/-- C5 (counterexample). A 1×1 source holding the pixel `-1`, upscaled to 3×3:
`SCALE_RANGE_X` is 0, the anchor pixel of destination `(0, 0)` is the source
pixel `-1`, yet the destination pixel is `0`; the buffer is not the
nearest-neighbour image. -/
theorem upscale_not_nearest_neighbour :
    ¬ ((scaleOf 3 3 (JSNum.ofNat 1) (JSNum.ofNat 1)).rangeX = 0 ∨
        (scaleOf 3 3 (JSNum.ofNat 1) (JSNum.ofNat 1)).rangeY = 0 →
      ∀ dest, downsample ⟨1, 1, [-1]⟩ 3 3 (JSNum.ofNat 0) (JSNum.ofNat 0)
          (JSNum.ofNat 1) (JSNum.ofNat 1) = some dest →
        ∀ dc dr, dc < 3 → dr < 3 →
          dest.data[dc + dr * 3]? =
            readPx [-1] (sourceInd 1 (scaleOf 3 3 (JSNum.ofNat 1) (JSNum.ofNat 1))
              (JSNum.ofNat 0) (JSNum.ofNat 0) dc dr)) := by
  intro hclaim
  have h := hclaim (by decide!) ⟨3, 3, [0, 0, 0, 0, 0, 0, 0, 0, 0]⟩ (by decide!) 0 0
    (by decide) (by decide)
  revert h
  decide!

/-- C5 (amended). When `SCALE_RANGE_X` or `SCALE_RANGE_Y` is 0 the window is
empty, so no source pixel is read, and every pixel of the returned buffer
is 0. -/
theorem downsample_zero_window (src : ImageData) (destWidth destHeight : Nat)
    (sourceX sourceY sourceWidth sourceHeight : JSNum)
    (hr : (scaleOf destWidth destHeight sourceWidth sourceHeight).rangeX = 0 ∨
      (scaleOf destWidth destHeight sourceWidth sourceHeight).rangeY = 0) :
    windowOffsets (scaleOf destWidth destHeight sourceWidth sourceHeight) = [] ∧
    ∀ dest, downsample src destWidth destHeight sourceX sourceY sourceWidth sourceHeight
        = some dest →
      dest.width = destWidth ∧ dest.height = destHeight ∧
        dest.data = List.replicate (destWidth * destHeight) 0 := by
  have hw := windowOffsets_of_zero _ hr
  refine ⟨hw, ?_⟩
  intro dest hd
  have hsq : (scaleOf destWidth destHeight sourceWidth sourceHeight).rangeSqr = 0 := by
    rw [scaleOf_rangeSqr]
    rcases hr with h | h <;> simp [h]
  have hpx : ∀ dc dr, destPixel src destWidth destHeight sourceX sourceY sourceWidth
      sourceHeight dc dr = 0 := by
    intro dc dr
    have hc : ∀ c, chanAvg src (scaleOf destWidth destHeight sourceWidth sourceHeight)
        (sourceInd src.width (scaleOf destWidth destHeight sourceWidth sourceHeight)
          sourceX sourceY dc dr) c = 0 := by
      intro c
      unfold chanAvg chanSum JSNum.ofInt
      rw [hw, hsq]
      simp only [List.map_nil, List.sum_nil, Int.cast_zero]
      exact round_div_zero 0
    unfold destPixel
    simp only [hc]
    decide!
  unfold downsample at hd
  by_cases hz : destWidth = 0 ∨ destHeight = 0
  · rw [if_pos hz] at hd
    exact Option.noConfusion hd
  · rw [if_neg hz] at hd
    cases hd
    refine ⟨rfl, rfl, ?_⟩
    simp only [hpx]
    exact List.ofFn_const _ _

/-- C5 (witness). A 1×1 source upscaled to 3×3: the window is empty and the
returned buffer holds nine zero pixels. -/
theorem downsample_zero_window_witness :
    ((scaleOf 3 3 (JSNum.ofNat 1) (JSNum.ofNat 1)).rangeX = 0 ∨
      (scaleOf 3 3 (JSNum.ofNat 1) (JSNum.ofNat 1)).rangeY = 0) ∧
    (windowOffsets (scaleOf 3 3 (JSNum.ofNat 1) (JSNum.ofNat 1)) = [] ∧
    ∀ dest, downsample ⟨1, 1, [-1]⟩ 3 3 (JSNum.ofNat 0) (JSNum.ofNat 0)
        (JSNum.ofNat 1) (JSNum.ofNat 1) = some dest →
      dest.width = 3 ∧ dest.height = 3 ∧ dest.data = List.replicate (3 * 3) 0) :=
  ⟨by decide!, downsample_zero_window ⟨1, 1, [-1]⟩ 3 3 (JSNum.ofNat 0) (JSNum.ofNat 0)
    (JSNum.ofNat 1) (JSNum.ofNat 1) (by decide!)⟩

/-- C6. In every buffer returned by `downsample`, the four channel averages
computed for a pixel are integers between 0 and 255, and the packed pixel
stores each of them unchanged in its own byte. -/
theorem downsample_channels_in_byte_range (src : ImageData) (destWidth destHeight : Nat)
    (sourceX sourceY sourceWidth sourceHeight : JSNum) (dest : ImageData)
    (hd : downsample src destWidth destHeight sourceX sourceY sourceWidth sourceHeight
      = some dest)
    (destCol destRow : Nat) (hc : destCol < destWidth) (hr : destRow < destHeight) :
    ∃ p, dest.data[destCol + destRow * destWidth]? = some p ∧
      ∀ c : Channel,
        0 ≤ chanAvg src (scaleOf destWidth destHeight sourceWidth sourceHeight)
          (sourceInd src.width (scaleOf destWidth destHeight sourceWidth sourceHeight)
            sourceX sourceY destCol destRow) c ∧
        chanAvg src (scaleOf destWidth destHeight sourceWidth sourceHeight)
          (sourceInd src.width (scaleOf destWidth destHeight sourceWidth sourceHeight)
            sourceX sourceY destCol destRow) c ≤ 255 ∧
        pxChan c (some p) =
          chanAvg src (scaleOf destWidth destHeight sourceWidth sourceHeight)
            (sourceInd src.width (scaleOf destWidth destHeight sourceWidth sourceHeight)
              sourceX sourceY destCol destRow) c := by
  obtain ⟨-, -, -, hpx⟩ := downsample_data hd
  refine ⟨_, hpx destCol destRow hc hr, ?_⟩
  intro c
  have hrange := chanAvg_range src
    (scaleOf destWidth destHeight sourceWidth sourceHeight)
    (sourceInd src.width (scaleOf destWidth destHeight sourceWidth sourceHeight)
      sourceX sourceY destCol destRow) c (scaleOf_rangeSqr _ _ _ _)
  exact ⟨hrange.1, hrange.2, pxChan_destPixel _ _ _ _ _ _ _ _ _ c⟩

/-- C6 (witness). The pixel `(1, 1)` of the 2×2 image computed from a uniform
3×3 source. -/
theorem downsample_channels_in_byte_range_witness :
    ∃ p, (⟨2, 2, [-1, -1, -2139062144, 1077952576]⟩ : ImageData).data[1 + 1 * 2]? = some p ∧
      ∀ c : Channel,
        0 ≤ chanAvg ⟨3, 3, [-1, -1, -1, -1, -1, -1, -1, -1, -1]⟩
          (scaleOf 2 2 (JSNum.ofNat 3) (JSNum.ofNat 3))
          (sourceInd 3 (scaleOf 2 2 (JSNum.ofNat 3) (JSNum.ofNat 3))
            (JSNum.ofNat 0) (JSNum.ofNat 0) 1 1) c ∧
        chanAvg ⟨3, 3, [-1, -1, -1, -1, -1, -1, -1, -1, -1]⟩
          (scaleOf 2 2 (JSNum.ofNat 3) (JSNum.ofNat 3))
          (sourceInd 3 (scaleOf 2 2 (JSNum.ofNat 3) (JSNum.ofNat 3))
            (JSNum.ofNat 0) (JSNum.ofNat 0) 1 1) c ≤ 255 ∧
        pxChan c (some p) =
          chanAvg ⟨3, 3, [-1, -1, -1, -1, -1, -1, -1, -1, -1]⟩
            (scaleOf 2 2 (JSNum.ofNat 3) (JSNum.ofNat 3))
            (sourceInd 3 (scaleOf 2 2 (JSNum.ofNat 3) (JSNum.ofNat 3))
              (JSNum.ofNat 0) (JSNum.ofNat 0) 1 1) c :=
  downsample_channels_in_byte_range ⟨3, 3, [-1, -1, -1, -1, -1, -1, -1, -1, -1]⟩ 2 2
    (JSNum.ofNat 0) (JSNum.ofNat 0) (JSNum.ofNat 3) (JSNum.ofNat 3)
    ⟨2, 2, [-1, -1, -2139062144, 1077952576]⟩ (by decide!) 1 1 (by decide) (by decide)

/-! ## The crop of `scaleImageData` -/

theorem wrapInt32_le {z : Int} (h : 0 ≤ z) : wrapInt32 z ≤ z := by
  unfold wrapInt32; omega

theorem sar_zero (z : Int) : sar z 0 = z := by
  simp [sar]

theorem orElse_falsy {o : Option JSNum} (h : ∀ v, o = some v → v.truthy = false) (b : JSNum) :
    orElse o b = b := by
  cases o with
  | none => rfl
  | some v => simp [orElse, h v rfl]

theorem orElse_truthy {v : JSNum} (h : v.truthy = true) (b : JSNum) :
    orElse (some v) b = v := by
  simp [orElse, h]

theorem specCropWidth_bounds {W H dw dh : Nat} (hW : 0 < W) (hH : 0 < H)
    (hdw : 0 < dw) (hdh : 0 < dh) :
    0 < specCropWidth W H dw dh ∧ specCropWidth W H dw dh ≤ W := by
  have hH' : (0 : ℚ) < H := by exact_mod_cast hH
  have hW' : (0 : ℚ) < W := by exact_mod_cast hW
  have hr : (0 : ℚ) < (dw : ℚ) / dh := by positivity
  unfold specCropWidth
  split
  · exact ⟨hW', le_rfl⟩
  · next hc =>
    refine ⟨by positivity, ?_⟩
    have hle : (dw : ℚ) / dh ≤ (W : ℚ) / H := not_lt.mp hc
    calc (H : ℚ) * ((dw : ℚ) / dh) ≤ H * ((W : ℚ) / H) :=
          mul_le_mul_of_nonneg_left hle hH'.le
      _ = W := by field_simp

theorem specCropHeight_bounds {W H dw dh : Nat} (hW : 0 < W) (hH : 0 < H)
    (hdw : 0 < dw) (hdh : 0 < dh) :
    0 < specCropHeight W H dw dh ∧ specCropHeight W H dw dh ≤ H := by
  have hH' : (0 : ℚ) < H := by exact_mod_cast hH
  have hW' : (0 : ℚ) < W := by exact_mod_cast hW
  have hr : (0 : ℚ) < (dw : ℚ) / dh := by positivity
  unfold specCropHeight
  split
  · next hc =>
    refine ⟨by positivity, ?_⟩
    rw [div_le_iff₀ hr]
    have := (div_lt_iff₀ hH').mp hc
    linarith
  · exact ⟨hH', le_rfl⟩

theorem cropOf_size (W : Nat) {H dw dh : Nat} (hH : 0 < H)
    (hdw : 0 < dw) (hdh : 0 < dh) (sx sy : Option JSNum) :
    (cropOf W H dw dh sx sy).width = JSNum.fin (specCropWidth W H dw dh) ∧
    (cropOf W H dw dh sx sy).height = JSNum.fin (specCropHeight W H dw dh) := by
  have hH' : (H : ℚ) ≠ 0 := by positivity
  have hdh' : (dh : ℚ) ≠ 0 := by positivity
  have hr : (dw : ℚ) / dh ≠ 0 := by positivity
  have e1 : JSNum.div (JSNum.ofNat dw) (JSNum.ofNat dh) = JSNum.fin ((dw : ℚ) / dh) := by
    unfold JSNum.ofNat; exact div_fin hdh'
  have e2 : JSNum.div (JSNum.ofNat W) (JSNum.ofNat H) = JSNum.fin ((W : ℚ) / H) := by
    unfold JSNum.ofNat; exact div_fin hH'
  unfold cropOf specCropWidth specCropHeight
  simp only [e1, e2, JSNum.gt]
  by_cases hc : (W : ℚ) / H < (dw : ℚ) / dh
  · simp only [hc, decide_True, if_true]
    exact ⟨rfl, by unfold JSNum.ofNat; exact div_fin hr⟩
  · simp only [hc, decide_False, if_false]
    exact ⟨rfl, rfl⟩

theorem centre_offset (D : Nat) (c : ℚ) (hc : c ≤ D) :
    ∃ z : Int, sar (toInt32 (JSNum.div (JSNum.sub (JSNum.ofNat D) (JSNum.fin c))
        (JSNum.fin 2))) 0 = z ∧ z = wrapInt32 ⌊((D : ℚ) - c) / 2⌋ ∧
      (z : ℚ) ≤ ((D : ℚ) - c) / 2 := by
  have h0 : 0 ≤ ((D : ℚ) - c) / 2 := by linarith
  have e : JSNum.div (JSNum.sub (JSNum.ofNat D) (JSNum.fin c)) (JSNum.fin 2)
      = JSNum.fin (((D : ℚ) - c) / 2) := by
    simp only [JSNum.sub, JSNum.neg, JSNum.add, JSNum.ofNat]
    rw [div_fin (by norm_num), sub_eq_add_neg]
  refine ⟨_, rfl, ?_, ?_⟩
  · rw [sar_zero, e]
    simp only [toInt32]
    rw [truncQ_of_nonneg h0]
  · rw [sar_zero, e]
    simp only [toInt32]
    rw [truncQ_of_nonneg h0]
    have h1 := wrapInt32_le (Int.floor_nonneg.mpr h0)
    calc ((wrapInt32 ⌊((D : ℚ) - c) / 2⌋ : Int) : ℚ) ≤ ((⌊((D : ℚ) - c) / 2⌋ : Int) : ℚ) := by
          exact_mod_cast h1
      _ ≤ ((D : ℚ) - c) / 2 := Int.floor_le _

theorem centre_offset_floor (D : Nat) (c : ℚ) (hc : c ≤ D) (h0 : 0 ≤ c)
    (hD : D < 4294967296) :
    sar (toInt32 (JSNum.div (JSNum.sub (JSNum.ofNat D) (JSNum.fin c)) (JSNum.fin 2))) 0
      = ⌊((D : ℚ) - c) / 2⌋ := by
  obtain ⟨z, hz, hz', -⟩ := centre_offset D c hc
  rw [hz, hz']
  have hn : 0 ≤ ((D : ℚ) - c) / 2 := by linarith
  have hlt : ⌊((D : ℚ) - c) / 2⌋ < 2147483648 := by
    rw [Int.floor_lt]
    have : (D : ℚ) < 4294967296 := by exact_mod_cast hD
    push_cast; linarith
  exact wrapInt32_of_range (by have := Int.floor_nonneg.mpr hn; omega) hlt

theorem windowOffsets_two (s : Scale) (hx : s.rangeX = 2) (hy : s.rangeY = 2) :
    windowOffsets s = [(0, 0), (1, 0), (0, 1), (1, 1)] := by
  unfold windowOffsets
  rw [hx, hy]
  rfl

/-- C9. On a source of even width and height in which every aligned 2×2
window is a permutation of two `black` and two `white` pixels, `downsample` to
half the width and half the height gives, in every output pixel, exactly 128
in each channel that is 0 in `black` and 255 in `white`. -/
theorem downsample_checkerboard (src : ImageData) (dw dh : Nat) (black white : Int)
    (c : Channel)
    (hw : 0 < dw) (hh : 0 < dh)
    (hW : src.width = 2 * dw) (hH : src.height = 2 * dh)
    (bW : src.width < 2147483648) (bH : src.height < 2147483648)
    (hblack : pxChan c (some black) = 0) (hwhite : pxChan c (some white) = 255)
    (hboard : ∀ i j, i < dw → j < dh →
      List.Perm
        [src.data[2 * i + 2 * j * src.width]?, src.data[2 * i + 1 + 2 * j * src.width]?,
         src.data[2 * i + (2 * j + 1) * src.width]?,
         src.data[2 * i + 1 + (2 * j + 1) * src.width]?]
        [some black, some black, some white, some white]) :
    (scaleOf dw dh (JSNum.ofNat src.width) (JSNum.ofNat src.height)).rangeX = 2 ∧
    (scaleOf dw dh (JSNum.ofNat src.width) (JSNum.ofNat src.height)).rangeY = 2 ∧
    ∃ dest, downsample src dw dh (JSNum.ofNat 0) (JSNum.ofNat 0)
        (JSNum.ofNat src.width) (JSNum.ofNat src.height) = some dest ∧
      ∀ dc dr, dc < dw → dr < dh →
        ∃ p, dest.data[dc + dr * dw]? = some p ∧ pxChan c (some p) = 128 := by
  have hs := scaleOf_multiple 2 2 hw hh (by norm_num) (by norm_num)
    (by norm_num) (by norm_num)
  rw [← hW, ← hH] at hs
  obtain ⟨dest, hd, -, -, -, hpx⟩ :=
    downsample_some src (JSNum.ofNat 0) (JSNum.ofNat 0)
      (JSNum.ofNat src.width) (JSNum.ofNat src.height) hw hh
  refine ⟨by rw [hs]; rfl, by rw [hs]; rfl, dest, hd, ?_⟩
  intro dc dr hdc hdr
  refine ⟨_, hpx dc dr hdc hdr, ?_⟩
  rw [pxChan_destPixel]
  have hind := sourceInd_multiple src.width 0 0 dc dr 2 2
    (scaleOf dw dh (JSNum.ofNat src.width) (JSNum.ofNat src.height))
    (by rw [hs]) (by rw [hs]) (by norm_num) (by norm_num) (by omega) (by omega)
  have hwin := windowOffsets_two
    (scaleOf dw dh (JSNum.ofNat src.width) (JSNum.ofNat src.height))
    (by rw [hs]; rfl) (by rw [hs]; rfl)
  have hsq : (scaleOf dw dh (JSNum.ofNat src.width) (JSNum.ofNat src.height)).rangeSqr
      = 4 := by rw [hs]; rfl
  have e00 : 0 + dc * 2 + (0 + dr * 2) * src.width + 0 + 0 * src.width
      = 2 * dc + 2 * dr * src.width := by ring
  have e10 : 0 + dc * 2 + (0 + dr * 2) * src.width + 1 + 0 * src.width
      = 2 * dc + 1 + 2 * dr * src.width := by ring
  have e01 : 0 + dc * 2 + (0 + dr * 2) * src.width + 0 + 1 * src.width
      = 2 * dc + (2 * dr + 1) * src.width := by ring
  have e11 : 0 + dc * 2 + (0 + dr * 2) * src.width + 1 + 1 * src.width
      = 2 * dc + 1 + (2 * dr + 1) * src.width := by ring
  have hsum : chanSum src (scaleOf dw dh (JSNum.ofNat src.width) (JSNum.ofNat src.height))
      (sourceInd src.width (scaleOf dw dh (JSNum.ofNat src.width) (JSNum.ofNat src.height))
        (JSNum.ofNat 0) (JSNum.ofNat 0) dc dr) c = 510 := by
    unfold chanSum
    rw [hwin, hind]
    simp only [List.map_cons, List.map_nil, readIndex_natCast, readPx_natCast,
      e00, e10, e01, e11]
    have hp := ((hboard dc dr hdc hdr).map (pxChan c)).sum_eq
    simp only [List.map_cons, List.map_nil, hblack, hwhite] at hp
    rw [hp]
    rfl
  unfold chanAvg
  rw [hsum, hsq]
  decide!

/-- C9 (witness). The 2×2 checkerboard black, white, white, black reduced to
one pixel, red channel. -/
theorem downsample_checkerboard_witness :
    (scaleOf 1 1 (JSNum.ofNat 2) (JSNum.ofNat 2)).rangeX = 2 ∧
    (scaleOf 1 1 (JSNum.ofNat 2) (JSNum.ofNat 2)).rangeY = 2 ∧
    ∃ dest, downsample ⟨2, 2, [-16777216, -1, -1, -16777216]⟩ 1 1
        (JSNum.ofNat 0) (JSNum.ofNat 0) (JSNum.ofNat 2) (JSNum.ofNat 2) = some dest ∧
      ∀ dc dr, dc < 1 → dr < 1 →
        ∃ p, dest.data[dc + dr * 1]? = some p ∧ pxChan Channel.red (some p) = 128 :=
  downsample_checkerboard ⟨2, 2, [-16777216, -1, -1, -16777216]⟩ 1 1 (-16777216) (-1)
    Channel.red (by decide) (by decide) rfl rfl (by decide) (by decide)
    (by decide!) (by decide!)
    (by
      intro i j hi hj
      have hi0 : i = 0 := by omega
      have hj0 : j = 0 := by omega
      subst hi0 hj0
      decide)

/-! ## Argument validation -/

/-- C10. `validateArguments` returns a `TypeError` if and only if fewer than 3
arguments are given, or the first is not a File, an HTMLImageElement, an
HTMLVideoElement or a string, or the second is not of type number, or the third
is not of type number; otherwise it returns no error.  `downscale` returns the
rejected promise exactly when `validateArguments` returns an error, and
rejects with that error. -/
theorem validateArguments_error_iff (args : List JSValue) :
    ((∃ err, validateArguments args = some err) ↔
      (args.length < 3 ∨
        ¬ ((∃ id, argAt args 0 = JSValue.file id) ∨
           (∃ id, argAt args 0 = JSValue.htmlImage id) ∨
           (∃ id, argAt args 0 = JSValue.htmlVideo id) ∨
           (∃ s, argAt args 0 = JSValue.str s)) ∨
        ¬ (∃ n, argAt args 1 = JSValue.num n) ∨
        ¬ (∃ n, argAt args 2 = JSValue.num n))) ∧
    (validateArguments args = none ↔
      ¬ (args.length < 3 ∨
        ¬ ((∃ id, argAt args 0 = JSValue.file id) ∨
           (∃ id, argAt args 0 = JSValue.htmlImage id) ∨
           (∃ id, argAt args 0 = JSValue.htmlVideo id) ∨
           (∃ s, argAt args 0 = JSValue.str s)) ∨
        ¬ (∃ n, argAt args 1 = JSValue.num n) ∨
        ¬ (∃ n, argAt args 2 = JSValue.num n))) ∧
    (∀ err, downscaleEntry args = Entry.rejected err ↔ validateArguments args = some err) ∧
    (downscaleEntry args = Entry.proceeds ↔ validateArguments args = none) := by
  have hsrc : ∀ v : JSValue, truthyStr (detectSourceType v) = true ↔
      ((∃ id, v = JSValue.file id) ∨ (∃ id, v = JSValue.htmlImage id) ∨
        (∃ id, v = JSValue.htmlVideo id) ∨ (∃ s, v = JSValue.str s)) := by
    intro v
    cases v <;> simp [detectSourceType, truthyStr]
  have hnum : ∀ v : JSValue, isNumber v = true ↔ ∃ n, v = JSValue.num n := by
    intro v
    cases v <;> simp [isNumber]
  have hnone : validateArguments args = none ↔
      ¬ (args.length < 3 ∨
        ¬ ((∃ id, argAt args 0 = JSValue.file id) ∨
           (∃ id, argAt args 0 = JSValue.htmlImage id) ∨
           (∃ id, argAt args 0 = JSValue.htmlVideo id) ∨
           (∃ s, argAt args 0 = JSValue.str s)) ∨
        ¬ (∃ n, argAt args 1 = JSValue.num n) ∨
        ¬ (∃ n, argAt args 2 = JSValue.num n)) := by
    rw [← hsrc, ← hnum, ← hnum]
    unfold validateArguments
    by_cases h1 : args.length < 3
    · simp [h1]
    · by_cases h2 : truthyStr (detectSourceType (argAt args 0)) = true
      · by_cases h3 : isNumber (argAt args 1) = true
        · by_cases h4 : isNumber (argAt args 2) = true
          · simp [h1, h2, h3, h4]
          · simp [h1, h2, h3, h4]
        · simp [h1, h2, h3]
      · simp [h1, h2]
  refine ⟨?_, hnone, ?_, ?_⟩
  · rw [← not_iff_not, ← hnone]
    cases validateArguments args <;> simp
  · intro err
    unfold downscaleEntry
    cases validateArguments args <;> simp
  · unfold downscaleEntry
    cases validateArguments args <;> simp

/-! ## Positive dimensions are not validated -/

/-- C11 (counterexample). A call with a string source, `destWidth = 0` and
`destHeight = -5`: `validateArguments` returns no error and `downscale` goes on
past validation; likewise with `NaN` dimensions. -/
theorem validateArguments_accepts_nonpositive :
    validateArguments [JSValue.str "a.jpg", JSValue.num (JSNum.fin 0),
        JSValue.num (JSNum.fin (-5))] = none ∧
    downscaleEntry [JSValue.str "a.jpg", JSValue.num (JSNum.fin 0),
        JSValue.num (JSNum.fin (-5))] = Entry.proceeds ∧
    validateArguments [JSValue.str "a.jpg", JSValue.num JSNum.nan,
        JSValue.num JSNum.nan] = none := by
  decide

/-- C11 (amended). Validation checks the type of the dimensions only: for
every request with at least 3 arguments and a supported source, whatever
numbers `destWidth` and `destHeight` are (zero, negative, `NaN` and infinite
ones included), `validateArguments` returns no error and `downscale` goes on
past validation; a dimension that is not of type number gives an error. -/
theorem validateArguments_checks_type_only (source : JSValue) (destWidth destHeight : JSValue)
    (rest : List JSValue)
    (hsrc : truthyStr (detectSourceType source) = true) :
    (∀ w h : JSNum, destWidth = JSValue.num w → destHeight = JSValue.num h →
      validateArguments (source :: destWidth :: destHeight :: rest) = none ∧
      downscaleEntry (source :: destWidth :: destHeight :: rest) = Entry.proceeds) ∧
    (isNumber destWidth = false ∨ isNumber destHeight = false →
      ∃ err, validateArguments (source :: destWidth :: destHeight :: rest) = some err ∧
        downscaleEntry (source :: destWidth :: destHeight :: rest) = Entry.rejected err) := by
  constructor
  · intro w h hw hh
    subst hw hh
    have hv : validateArguments (source :: JSValue.num w :: JSValue.num h :: rest) = none := by
      simp [validateArguments, argAt, hsrc, isNumber]
    exact ⟨hv, by simp [downscaleEntry, hv]⟩
  · intro hn
    have hlen : ¬ ((source :: destWidth :: destHeight :: rest).length < 3) := by
      simp only [List.length_cons]; omega
    have hv : ∃ err, validateArguments (source :: destWidth :: destHeight :: rest) = some err := by
      unfold validateArguments
      rw [if_neg hlen]
      rcases hn with h | h
      · exact ⟨⟨"Second argument should be a number"⟩, by simp [argAt, hsrc, h]⟩
      · by_cases h1 : isNumber destWidth = true
        · exact ⟨⟨"Third argument should be a number"⟩, by simp [argAt, hsrc, h, h1]⟩
        · exact ⟨⟨"Second argument should be a number"⟩, by simp [argAt, hsrc, h1]⟩
    obtain ⟨err, he⟩ := hv
    exact ⟨err, he, by simp [downscaleEntry, he]⟩

/-- C11 (witness). A string source with the dimensions `0` and `-5`. -/
theorem validateArguments_checks_type_only_witness :
    validateArguments [JSValue.str "a.jpg", JSValue.num (JSNum.fin 0),
        JSValue.num (JSNum.fin (-5))] = none ∧
    downscaleEntry [JSValue.str "a.jpg", JSValue.num (JSNum.fin 0),
        JSValue.num (JSNum.fin (-5))] = Entry.proceeds :=
  (validateArguments_checks_type_only (JSValue.str "a.jpg") (JSValue.num (JSNum.fin 0))
    (JSValue.num (JSNum.fin (-5))) [] (by decide)).1 (JSNum.fin 0) (JSNum.fin (-5)) rfl rfl

/-! ## `round` -/

theorem sum_map_range (f : Nat → Int) (n : Nat) :
    ((List.range n).map f).sum = ∑ i in Finset.range n, f i := by
  induction n with
  | zero => simp
  | succ n ih =>
    rw [List.range_succ, List.map_append, List.sum_append, ih, Finset.sum_range_succ]
    simp

theorem sum_map_flatMap {α β : Type} (l : List α) (g : α → List β) (h : β → Int) :
    ((l.flatMap g).map h).sum = (l.map fun a => ((g a).map h).sum).sum := by
  induction l with
  | nil => simp
  | cons a t ih =>
    rw [List.flatMap_cons, List.map_append, List.sum_append, ih]
    simp

theorem readIndex_fin (W : Nat) (a : ℚ) (col row : Nat) :
    readIndex W (JSNum.fin a) col row = JSNum.fin (a + (col : ℚ) + (row : ℚ) * W) := by
  simp only [readIndex, JSNum.ofNat, JSNum.add, JSNum.mul]

theorem chanSum_fin (src : ImageData) (s : Scale) (a : ℚ) (c : Channel) :
    chanSum src s (JSNum.fin a) c = specChanSum src c a s.rangeX s.rangeY := by
  unfold chanSum windowOffsets specChanSum
  rw [sum_map_flatMap, sum_map_range]
  apply Finset.sum_congr rfl
  intro row _
  rw [List.map_map, sum_map_range]
  apply Finset.sum_congr rfl
  intro col _
  simp only [Function.comp, readIndex_fin]

theorem specRound_nonneg {v : ℚ} (h : 0 ≤ v) : 0 ≤ specRound v :=
  Int.floor_nonneg.mpr (by linarith)

theorem round_eq_specRound {v : ℚ} (h0 : 0 ≤ v) (h1 : v < 2147483647) :
    Downscale.round (JSNum.fin v) = specRound v := by
  unfold specRound
  apply round_fin_of_nonneg (by linarith)
  rw [Int.floor_lt]
  push_cast
  linarith

theorem scaleOf_fin {dw dh : Nat} {cw ch : ℚ} (hdw : 0 < dw) (hdh : 0 < dh)
    (hcw : 0 < cw) (hch : 0 < ch) (bw : cw < 2147483647) (bh : ch < 2147483647) :
    scaleOf dw dh (JSNum.fin cw) (JSNum.fin ch) =
      { factorX := JSNum.fin ((dw : ℚ) / cw), factorY := JSNum.fin ((dh : ℚ) / ch),
        rangeX := specRound (1 / ((dw : ℚ) / cw)), rangeY := specRound (1 / ((dh : ℚ) / ch)),
        rangeSqr := specRound (1 / ((dw : ℚ) / cw)) * specRound (1 / ((dh : ℚ) / ch)) } := by
  have hdw' : (0 : ℚ) < dw := by exact_mod_cast hdw
  have hdh' : (0 : ℚ) < dh := by exact_mod_cast hdh
  have h1w : (1 : ℚ) ≤ dw := by exact_mod_cast hdw
  have h1h : (1 : ℚ) ≤ dh := by exact_mod_cast hdh
  have fx : JSNum.div (JSNum.ofNat dw) (JSNum.fin cw) = JSNum.fin ((dw : ℚ) / cw) := by
    unfold JSNum.ofNat; exact div_fin hcw.ne'
  have fy : JSNum.div (JSNum.ofNat dh) (JSNum.fin ch) = JSNum.fin ((dh : ℚ) / ch) := by
    unfold JSNum.ofNat; exact div_fin hch.ne'
  have ex : 1 / ((dw : ℚ) / cw) = cw / dw := by field_simp
  have ey : 1 / ((dh : ℚ) / ch) = ch / dh := by field_simp
  have lx : cw / (dw : ℚ) ≤ cw := div_le_self hcw.le h1w
  have ly : ch / (dh : ℚ) ≤ ch := div_le_self hch.le h1h
  have rx : Downscale.round (JSNum.div (JSNum.fin 1) (JSNum.fin ((dw : ℚ) / cw)))
      = specRound (1 / ((dw : ℚ) / cw)) := by
    rw [div_fin (by positivity)]
    apply round_eq_specRound
    · positivity
    · rw [ex]; linarith
  have ry : Downscale.round (JSNum.div (JSNum.fin 1) (JSNum.fin ((dh : ℚ) / ch)))
      = specRound (1 / ((dh : ℚ) / ch)) := by
    rw [div_fin (by positivity)]
    apply round_eq_specRound
    · positivity
    · rw [ey]; linarith
  unfold scaleOf
  simp only [fx, fy, rx, ry]

theorem sourceInd_fin (W : Nat) (s : Scale) {dw dh : Nat} {cw ch : ℚ} (x y : ℚ)
    (hfx : s.factorX = JSNum.fin ((dw : ℚ) / cw)) (hfy : s.factorY = JSNum.fin ((dh : ℚ) / ch))
    (hdw : 0 < dw) (hdh : 0 < dh)
    (hcw : 0 < cw) (hch : 0 < ch) (bw : cw < 2147483647) (bh : ch < 2147483647)
    (dc dr : Nat) (hdc : dc < dw) (hdr : dr < dh) :
    sourceInd W s (JSNum.fin x) (JSNum.fin y) dc dr
      = JSNum.fin (specAnchor W x y ((dw : ℚ) / cw) ((dh : ℚ) / ch) dc dr) := by
  have hdw' : (0 : ℚ) < dw := by exact_mod_cast hdw
  have hdh' : (0 : ℚ) < dh := by exact_mod_cast hdh
  have hdc' : (dc : ℚ) < dw := by exact_mod_cast hdc
  have hdr' : (dr : ℚ) < dh := by exact_mod_cast hdr
  have ex : (dc : ℚ) / ((dw : ℚ) / cw) < cw := by
    rw [div_div_eq_mul_div, div_lt_iff₀ hdw']
    nlinarith
  have ey : (dr : ℚ) / ((dh : ℚ) / ch) < ch := by
    rw [div_div_eq_mul_div, div_lt_iff₀ hdh']
    nlinarith
  have rx : Downscale.round (JSNum.div (JSNum.ofNat dc) (JSNum.fin ((dw : ℚ) / cw)))
      = specRound ((dc : ℚ) / ((dw : ℚ) / cw)) := by
    unfold JSNum.ofNat
    rw [div_fin (by positivity)]
    exact round_eq_specRound (by positivity) (by linarith)
  have ry : Downscale.round (JSNum.div (JSNum.ofNat dr) (JSNum.fin ((dh : ℚ) / ch)))
      = specRound ((dr : ℚ) / ((dh : ℚ) / ch)) := by
    unfold JSNum.ofNat
    rw [div_fin (by positivity)]
    exact round_eq_specRound (by positivity) (by linarith)
  unfold sourceInd specAnchor
  rw [hfx, hfy, rx, ry]
  simp only [JSNum.ofNat, JSNum.ofInt, JSNum.add, JSNum.mul]

theorem chanAvg_eq_specRound (src : ImageData) (s : Scale) (ind : JSNum) (c : Channel)
    (hs : s.rangeSqr = s.rangeX * s.rangeY) (hpos : 0 < s.rangeX * s.rangeY) :
    chanAvg src s ind c
      = specRound (((chanSum src s ind c : Int) : ℚ) / ((s.rangeX * s.rangeY : Int) : ℚ)) := by
  have hb := chanSum_bounds src s ind c
  have hq : (0 : ℚ) < ((s.rangeX * s.rangeY : Int) : ℚ) := by exact_mod_cast hpos
  have hlen : ((s.rangeY.toNat * s.rangeX.toNat : Nat) : Int) ≤ s.rangeX * s.rangeY ∨
      chanSum src s ind c = 0 := by
    by_cases hx : 0 < s.rangeX
    · have hy : 0 < s.rangeY := by
        by_contra hy
        have := Int.mul_nonpos_of_nonneg_of_nonpos hx.le (not_lt.mp hy)
        omega
      left
      push_cast
      rw [Int.toNat_of_nonneg hx.le, Int.toNat_of_nonneg hy.le, mul_comm]
    · right
      have e : s.rangeX.toNat = 0 := Int.toNat_of_nonpos (by omega)
      rw [e, Nat.mul_zero] at hb
      omega
  have hle : ((chanSum src s ind c : Int) : ℚ) / ((s.rangeX * s.rangeY : Int) : ℚ) ≤ 255 := by
    rw [div_le_iff₀ hq]
    rcases hlen with h | h
    · have : chanSum src s ind c ≤ 255 * (s.rangeX * s.rangeY) := by
        have := hb.2
        nlinarith
      exact_mod_cast this
    · rw [h, Int.cast_zero]; exact mul_nonneg (by norm_num) hq.le
  have h0 : (0 : ℚ) ≤ ((chanSum src s ind c : Int) : ℚ) / ((s.rangeX * s.rangeY : Int) : ℚ) :=
    div_nonneg (by exact_mod_cast hb.1) hq.le
  unfold chanAvg JSNum.ofInt
  rw [hs, div_fin hq.ne']
  exact round_eq_specRound h0 (by linarith)

theorem split_index {W u v u' v' : Nat} (hu : u < W) (hu' : u' < W)
    (h : u + v * W = u' + v' * W) : u = u' ∧ v = v' := by
  have hm : (u + v * W) % W = (u' + v' * W) % W := by rw [h]
  rw [Nat.add_mul_mod_self_right, Nat.add_mul_mod_self_right, Nat.mod_eq_of_lt hu,
    Nat.mod_eq_of_lt hu'] at hm
  subst hm
  have hW : 0 < W := by omega
  have : v * W = v' * W := by omega
  exact ⟨rfl, Nat.eq_of_mul_eq_mul_right hW this⟩

theorem digit_lt {k n d c : Nat} (hd : d < n) (hc : c < k) : d * k + c < k * n := by
  calc d * k + c < d * k + k := by omega
    _ = k * (d + 1) := by ring
    _ ≤ k * n := Nat.mul_le_mul_left _ hd

theorem mem_windowOffsets (s : Scale) (o : Nat × Nat) :
    o ∈ windowOffsets s ↔ o.1 < s.rangeX.toNat ∧ o.2 < s.rangeY.toNat := by
  unfold windowOffsets
  simp only [List.mem_flatMap, List.mem_map, List.mem_range]
  constructor
  · rintro ⟨r, hr, c, hc, rfl⟩
    exact ⟨hc, hr⟩
  · rintro ⟨hc, hr⟩
    exact ⟨o.2, hr, o.1, hc, rfl⟩

theorem readIndex_multiple (W x y dc dr kx ky : Nat) (s : Scale)
    (hfx : s.factorX = JSNum.fin (1 / (kx : ℚ))) (hfy : s.factorY = JSNum.fin (1 / (ky : ℚ)))
    (hkx : 0 < kx) (hky : 0 < ky)
    (h1 : dc * kx < 2147483648) (h2 : dr * ky < 2147483648) (c r : Nat) :
    readIndex W (sourceInd W s (JSNum.ofNat x) (JSNum.ofNat y) dc dr) c r
      = JSNum.fin (((x + (dc * kx + c)) + (y + (dr * ky + r)) * W : ℕ) : ℚ) := by
  rw [sourceInd_multiple W x y dc dr kx ky s hfx hfy hkx hky h1 h2, readIndex_natCast]
  congr 2
  ring

/-- C18. When the crop is `kx * destWidth` by `ky * destHeight` for positive
integers `kx`, `ky` and lies inside the source, the windows of `downsample` are
`kx` by `ky`; every read lands on a pixel of the crop (and inside the buffer);
every pixel of the crop is read; and no index is read twice, neither within a
window nor by the windows of two destination pixels. -/
theorem downsample_windows_partition (src : ImageData) (dw dh kx ky x y : Nat)
    (hdw : 0 < dw) (hdh : 0 < dh) (hkx : 0 < kx) (hky : 0 < ky)
    (hx : x + kx * dw ≤ src.width) (hy : y + ky * dh ≤ src.height)
    (bW : src.width < 2147483648) (bH : src.height < 2147483648) :
    (∀ o : Nat × Nat,
      o ∈ windowOffsets (scaleOf dw dh (JSNum.ofNat (kx * dw)) (JSNum.ofNat (ky * dh)))
        ↔ o.1 < kx ∧ o.2 < ky) ∧
    (∀ dc dr c r, dc < dw → dr < dh →
      (c, r) ∈ windowOffsets (scaleOf dw dh (JSNum.ofNat (kx * dw)) (JSNum.ofNat (ky * dh))) →
      ∃ a b, a < kx * dw ∧ b < ky * dh ∧
        readIndex src.width (sourceInd src.width
            (scaleOf dw dh (JSNum.ofNat (kx * dw)) (JSNum.ofNat (ky * dh)))
            (JSNum.ofNat x) (JSNum.ofNat y) dc dr) c r
          = JSNum.fin (((x + a) + (y + b) * src.width : ℕ) : ℚ) ∧
        InBuffer (src.width * src.height)
          (JSNum.fin (((x + a) + (y + b) * src.width : ℕ) : ℚ))) ∧
    (∀ a b, a < kx * dw → b < ky * dh →
      ∃ dc dr c r, dc < dw ∧ dr < dh ∧
        (c, r) ∈ windowOffsets (scaleOf dw dh (JSNum.ofNat (kx * dw)) (JSNum.ofNat (ky * dh))) ∧
        readIndex src.width (sourceInd src.width
            (scaleOf dw dh (JSNum.ofNat (kx * dw)) (JSNum.ofNat (ky * dh)))
            (JSNum.ofNat x) (JSNum.ofNat y) dc dr) c r
          = JSNum.fin (((x + a) + (y + b) * src.width : ℕ) : ℚ)) ∧
    (∀ dc dr c r dc' dr' c' r', dc < dw → dr < dh → dc' < dw → dr' < dh →
      (c, r) ∈ windowOffsets (scaleOf dw dh (JSNum.ofNat (kx * dw)) (JSNum.ofNat (ky * dh))) →
      (c', r') ∈ windowOffsets (scaleOf dw dh (JSNum.ofNat (kx * dw)) (JSNum.ofNat (ky * dh))) →
      readIndex src.width (sourceInd src.width
          (scaleOf dw dh (JSNum.ofNat (kx * dw)) (JSNum.ofNat (ky * dh)))
          (JSNum.ofNat x) (JSNum.ofNat y) dc dr) c r
        = readIndex src.width (sourceInd src.width
          (scaleOf dw dh (JSNum.ofNat (kx * dw)) (JSNum.ofNat (ky * dh)))
          (JSNum.ofNat x) (JSNum.ofNat y) dc' dr') c' r' →
      dc = dc' ∧ dr = dr' ∧ c = c' ∧ r = r') := by
  have hkxW : kx ≤ kx * dw := Nat.le_mul_of_pos_right kx hdw
  have hkyH : ky ≤ ky * dh := Nat.le_mul_of_pos_right ky hdh
  have hs := scaleOf_multiple kx ky hdw hdh hkx hky (by omega) (by omega)
  have hmem : ∀ o : Nat × Nat,
      o ∈ windowOffsets (scaleOf dw dh (JSNum.ofNat (kx * dw)) (JSNum.ofNat (ky * dh)))
        ↔ o.1 < kx ∧ o.2 < ky := by
    intro o
    rw [mem_windowOffsets, hs]
    simp
  have hanchor : ∀ dc dr, dc < dw → dr < dh → dc * kx < 2147483648 ∧ dr * ky < 2147483648 := by
    intro dc dr hdc hdr
    have h1 := digit_lt hdc hkx
    have h2 := digit_lt hdr hky
    omega
  have hidx : ∀ dc dr c r, dc < dw → dr < dh →
      readIndex src.width (sourceInd src.width
          (scaleOf dw dh (JSNum.ofNat (kx * dw)) (JSNum.ofNat (ky * dh)))
          (JSNum.ofNat x) (JSNum.ofNat y) dc dr) c r
        = JSNum.fin (((x + (dc * kx + c)) + (y + (dr * ky + r)) * src.width : ℕ) : ℚ) := by
    intro dc dr c r hdc hdr
    exact readIndex_multiple src.width x y dc dr kx ky _ (by rw [hs]) (by rw [hs]) hkx hky
      (hanchor dc dr hdc hdr).1 (hanchor dc dr hdc hdr).2 c r
  refine ⟨hmem, ?_, ?_, ?_⟩
  · intro dc dr c r hdc hdr ho
    have hcr := (hmem (c, r)).mp ho
    have ha := digit_lt hdc hcr.1
    have hb := digit_lt hdr hcr.2
    refine ⟨dc * kx + c, dr * ky + r, ha, hb, hidx dc dr c r hdc hdr, ?_⟩
    have hlt : (x + (dc * kx + c)) + (y + (dr * ky + r)) * src.width
        < src.width * src.height := index_lt_of_contained (by omega) (by omega)
    unfold InBuffer
    simp only [Rat.den_natCast, Rat.num_natCast, true_and]
    exact ⟨Int.natCast_nonneg _, by exact_mod_cast hlt⟩
  · intro a b ha hb
    have hda : a / kx < dw := by
      rw [Nat.div_lt_iff_lt_mul hkx, Nat.mul_comm]; exact ha
    have hdb : b / ky < dh := by
      rw [Nat.div_lt_iff_lt_mul hky, Nat.mul_comm]; exact hb
    refine ⟨a / kx, b / ky, a % kx, b % ky, hda, hdb,
      (hmem _).mpr ⟨Nat.mod_lt _ hkx, Nat.mod_lt _ hky⟩, ?_⟩
    rw [hidx _ _ _ _ hda hdb]
    have e1 : a / kx * kx + a % kx = a := by
      rw [Nat.mul_comm]; exact Nat.div_add_mod a kx
    have e2 : b / ky * ky + b % ky = b := by
      rw [Nat.mul_comm]; exact Nat.div_add_mod b ky
    rw [e1, e2]
  · intro dc dr c r dc' dr' c' r' hdc hdr hdc' hdr' ho ho' heq
    have hcr := (hmem (c, r)).mp ho
    have hcr' := (hmem (c', r')).mp ho'
    rw [hidx dc dr c r hdc hdr, hidx dc' dr' c' r' hdc' hdr'] at heq
    have hnat : (x + (dc * kx + c)) + (y + (dr * ky + r)) * src.width
        = (x + (dc' * kx + c')) + (y + (dr' * ky + r')) * src.width := by
      have := JSNum.fin.inj heq
      exact_mod_cast this
    have ha := digit_lt hdc hcr.1
    have ha' := digit_lt hdc' hcr'.1
    obtain ⟨hcol, hrow⟩ := split_index (by omega) (by omega) hnat
    have hc1 : c + dc * kx = c' + dc' * kx := by omega
    have hr1 : r + dr * ky = r' + dr' * ky := by omega
    obtain ⟨e1, e2⟩ := split_index hcr.1 hcr'.1 hc1
    obtain ⟨e3, e4⟩ := split_index hcr.2 hcr'.2 hr1
    exact ⟨e2, e4, e1, e3⟩

/-- C18 (witness). A 5×4 source, crop 4×2 at `(1, 1)`, destination 2×1
(`kx = ky = 2`). -/
theorem downsample_windows_partition_witness :
    windowOffsets (scaleOf 2 1 (JSNum.ofNat (2 * 2)) (JSNum.ofNat (2 * 1)))
      = [(0, 0), (1, 0), (0, 1), (1, 1)] ∧
    readIndices ⟨5, 4, List.replicate 20 0⟩ 2 1 (JSNum.ofNat 1) (JSNum.ofNat 1)
        (JSNum.ofNat (2 * 2)) (JSNum.ofNat (2 * 1))
      = [JSNum.fin 6, JSNum.fin 7, JSNum.fin 11, JSNum.fin 12,
         JSNum.fin 8, JSNum.fin 9, JSNum.fin 13, JSNum.fin 14] ∧
    ∀ o : Nat × Nat,
      o ∈ windowOffsets (scaleOf 2 1 (JSNum.ofNat (2 * 2)) (JSNum.ofNat (2 * 1)))
        ↔ o.1 < 2 ∧ o.2 < 2 :=
  ⟨by decide!, by decide!,
    (downsample_windows_partition ⟨5, 4, List.replicate 20 0⟩ 2 1 2 2 1 1
      (by decide) (by decide) (by decide) (by decide) (by decide) (by decide)
      (by decide) (by decide)).1⟩

/-! ## The cache -/

theorem strictEq_eq {a b : JSValue} (h : strictEq a b = true) : a = b := by
  unfold strictEq at h
  simp only [Bool.and_eq_true, decide_eq_true_eq] at h
  exact h.1

theorem strictEq_of_eq {a b : JSValue} (h : a = b) (hs : strictEq b b = true) :
    strictEq a b = true := by
  rw [h]; exact hs

theorem indexOf_cons (key k : JSValue) (ks : List JSValue) :
    indexOf key (k :: ks)
      = if strictEq k key then some 0 else (indexOf key ks).map (· + 1) := rfl

theorem indexOf_lt {key : JSValue} {l : List JSValue} {i : Nat}
    (h : indexOf key l = some i) : i < l.length := by
  induction l generalizing i with
  | nil => simp [indexOf] at h
  | cons k ks ih =>
    unfold indexOf at h
    split at h
    · cases h; simp
    · cases hr : indexOf key ks with
      | none => rw [hr] at h; simp at h
      | some j =>
        rw [hr] at h
        simp only [Option.map_some', Option.some.injEq] at h
        have := ih hr
        simp only [List.length_cons]
        omega

theorem indexOf_getElem {key : JSValue} {l : List JSValue} {i : Nat}
    (h : indexOf key l = some i) : l[i]? = some key := by
  induction l generalizing i with
  | nil => simp [indexOf] at h
  | cons k ks ih =>
    unfold indexOf at h
    split at h
    · next hk =>
      cases h
      simp [strictEq_eq hk]
    · cases hr : indexOf key ks with
      | none => rw [hr] at h; simp at h
      | some j =>
        rw [hr] at h
        simp only [Option.map_some', Option.some.injEq] at h
        subst h
        simpa using ih hr

theorem indexOf_append_of_some {key : JSValue} {l : List JSValue} {i : Nat}
    (h : indexOf key l = some i) (m : List JSValue) : indexOf key (l ++ m) = some i := by
  induction l generalizing i with
  | nil => simp [indexOf] at h
  | cons k ks ih =>
    rw [List.cons_append]
    unfold indexOf at h ⊢
    split
    · next hk => rw [if_pos hk] at h; exact h
    · next hk =>
      rw [if_neg hk] at h
      cases hr : indexOf key ks with
      | none => rw [hr] at h; simp at h
      | some j =>
        rw [hr] at h
        rw [ih hr]
        exact h

theorem indexOf_append_of_none {key : JSValue} {l : List JSValue}
    (h : indexOf key l = none) (m : List JSValue) :
    indexOf key (l ++ m) = (indexOf key m).map (· + l.length) := by
  induction l with
  | nil => simp
  | cons k ks ih =>
    rw [List.cons_append, indexOf_cons]
    rw [indexOf_cons] at h
    by_cases hk : strictEq k key = true
    · rw [if_pos hk] at h; cases h
    · rw [if_neg hk] at h
      rw [if_neg hk]
      have hn : indexOf key ks = none := by
        cases hr : indexOf key ks with
        | none => rfl
        | some j => rw [hr] at h; simp at h
      rw [ih hn]
      cases indexOf key m with
      | none => rfl
      | some j =>
        simp only [Option.map_some', List.length_cons, Option.some.injEq]
        omega

theorem indexOf_eq_of_same {key k : JSValue} {l : List JSValue} {i : Nat}
    (h : indexOf key l = some i) (hk : indexOf k l = some i) : k = key := by
  have h1 := indexOf_getElem h
  have h2 := indexOf_getElem hk
  rw [h1] at h2
  exact (Option.some.inj h2).symm

theorem get_frame {ρ : Type} (c : Cache ρ) (k : JSValue) (r : Option ρ) :
    (c.get k r).cache.keys = c.keys ∧ (c.get k r).cache.values = c.values ∧
    (c.get k r).cache.subscribes.length = c.subscribes.length ∧
    ∀ i, indexOf k c.keys ≠ some i →
      (c.get k r).cache.subscribes[i]? = c.subscribes[i]? := by
  unfold Cache.get
  split
  · exact ⟨rfl, rfl, rfl, fun _ _ => rfl⟩
  · next j hj =>
    split
    · split
      · refine ⟨rfl, rfl, by simp, ?_⟩
        intro i hi
        have hne : j ≠ i := fun h => hi (by rw [hj, h])
        simp [List.getElem?_set_ne hne]
      · exact ⟨rfl, rfl, rfl, fun _ _ => rfl⟩
    · split <;> exact ⟨rfl, rfl, rfl, fun _ _ => rfl⟩

theorem get_ret {ρ : Type} (c : Cache ρ) (k : JSValue) (r : Option ρ) :
    (c.get k r).ret = none ∨ (c.get k r).ret = some JSValue.undefined := by
  unfold Cache.get
  split
  · exact Or.inr rfl
  · split
    · split
      · exact Or.inr rfl
      · exact Or.inl rfl
    · split
      · exact Or.inr rfl
      · exact Or.inl rfl

theorem get_of_pending {ρ : Type} {c : Cache ρ} {key : JSValue} {i : Nat}
    {ws : List (Option ρ)} (h : c.PendingAt key i ws) (r : Option ρ) :
    c.get key r =
      { cache := { c with subscribes := c.subscribes.set i (some (ws ++ [r])) }
        calls := []
        ret := some JSValue.undefined } := by
  obtain ⟨-, hi, hv, hs⟩ := h
  unfold Cache.get
  simp only [hi, hv, hs, if_true]

theorem get_of_ready {ρ : Type} {c : Cache ρ} {key : JSValue} {i : Nat} {b : ImageData}
    (h : c.ReadyAt key i b) (f : ρ) :
    c.get key (some f) =
      { cache := c, calls := [{ resolve := f, value := some b }],
        ret := some JSValue.undefined } := by
  obtain ⟨-, hi, hv⟩ := h
  unfold Cache.get
  simp [hi, hv, slotValue]

theorem get_undefined_of_ready {ρ : Type} {c : Cache ρ} {key : JSValue} {i : Nat}
    {b : ImageData} (h : c.ReadyAt key i b) :
    c.get key none = { cache := c, calls := [], ret := none } := by
  obtain ⟨-, hi, hv⟩ := h
  unfold Cache.get
  simp [hi, hv]

theorem get_wf {ρ : Type} {c : Cache ρ} (h : c.WF) (k : JSValue) (r : Option ρ) :
    (c.get k r).cache.WF := by
  obtain ⟨hk, hv, hs, -⟩ := get_frame c k r
  unfold Cache.WF at h ⊢
  rw [hk, hv, hs]
  exact h

theorem createSetter_cache {ρ : Type} (c : Cache ρ) (k : JSValue) :
    (c.createSetter k).cache = (c.get k none).cache ∨
    ((c.get k none).ret = some JSValue.undefined ∧
      (c.createSetter k).cache =
        { keys := (c.get k none).cache.keys ++ [k]
          values := (c.get k none).cache.values ++ [Slot.pending]
          subscribes := (c.get k none).cache.subscribes ++ [some []] } ∧
      (c.createSetter k).ret = some (some c.keys.length)) := by
  rcases get_ret c k none with h | h
  · left
    unfold Cache.createSetter
    simp only [h]
  · right
    refine ⟨h, ?_, ?_⟩
    · unfold Cache.createSetter
      simp only [h, JSValue.truthy]
      rfl
    · unfold Cache.createSetter
      simp only [h, JSValue.truthy, (get_frame c k none).1]
      rfl

theorem invokeSetter_frame {ρ : Type} (c : Cache ρ) (j : Nat) (v : ImageData) :
    (c.invokeSetter j v).cache.keys = c.keys ∧
    (c.invokeSetter j v).cache.values = c.values.set j (Slot.ready v) ∧
    (c.invokeSetter j v).cache.subscribes.length = c.subscribes.length ∧
    ∀ i, j ≠ i → (c.invokeSetter j v).cache.subscribes[i]? = c.subscribes[i]? := by
  unfold Cache.invokeSetter
  split
  · split
    · refine ⟨rfl, rfl, by simp, ?_⟩
      intro i hne
      simp [List.getElem?_set_ne hne]
    · exact ⟨rfl, rfl, rfl, fun _ _ => rfl⟩
  · exact ⟨rfl, rfl, rfl, fun _ _ => rfl⟩

theorem createSetter_fresh {ρ : Type} {c : Cache ρ} {key : JSValue} (hwf : c.WF)
    (hk : strictEq key key = true) (habs : c.has key = false) :
    (c.createSetter key).calls = [] ∧
    (c.createSetter key).ret = some (some c.keys.length) ∧
    (c.createSetter key).cache.PendingAt key c.keys.length [] := by
  have hidx : indexOf key c.keys = none := by
    unfold Cache.has at habs
    cases h : indexOf key c.keys with
    | none => rfl
    | some j => rw [h] at habs; simp at habs
  have hg : c.get key none = { cache := c, calls := [], ret := some JSValue.undefined } := by
    unfold Cache.get
    simp only [hidx]
  have hc : c.createSetter key =
      { cache := { keys := c.keys ++ [key], values := c.values ++ [Slot.pending],
                   subscribes := c.subscribes ++ [some []] }
        calls := [], ret := some (some c.keys.length) } := by
    unfold Cache.createSetter
    simp only [hg, JSValue.truthy]
    rfl
  rw [hc]
  refine ⟨rfl, rfl, ?_, ?_, ?_, ?_⟩
  · unfold Cache.WF at hwf ⊢
    simp only [List.length_append, List.length_singleton]
    omega
  · show indexOf key (c.keys ++ [key]) = some c.keys.length
    rw [indexOf_append_of_none hidx, indexOf_cons, if_pos hk]
    simp
  · show (c.values ++ [Slot.pending])[c.keys.length]? = some Slot.pending
    rw [← hwf.1]
    simp
  · show (c.subscribes ++ [some []])[c.keys.length]? = some (some [])
    rw [← hwf.2]
    simp

theorem append_getElem?_of_some {α : Type} {l : List α} {i : Nat} {a : α}
    (h : l[i]? = some a) (m : List α) : (l ++ m)[i]? = some a := by
  have hlt : i < l.length := by
    by_contra hc
    rw [List.getElem?_eq_none (by omega)] at h
    cases h
  rw [List.getElem?_append_left hlt]
  exact h

theorem exec_pending {ρ : Type} {c : Cache ρ} {key : JSValue} {i : Nat}
    {ws : List (Option ρ)} (h : c.PendingAt key i ws) (op : CacheOp ρ)
    (hop : ¬ op.invokes i) :
    (c.exec op).PendingAt key i (ws ++ registered key op) := by
  have hget : ∀ (k : JSValue) (r : Option ρ),
      (c.get k r).cache.PendingAt key i (ws ++ if k = key then [r] else []) := by
    intro k r
    by_cases hk : k = key
    · subst hk
      rw [if_pos rfl, get_of_pending h r]
      obtain ⟨hwf, hi, hv, hs⟩ := h
      have hlt : i < c.subscribes.length := by
        rw [hwf.2]; exact indexOf_lt hi
      refine ⟨?_, hi, hv, ?_⟩
      · unfold Cache.WF at hwf ⊢
        simpa using hwf
      · show (c.subscribes.set i (some (ws ++ [r])))[i]? = some (some (ws ++ [r]))
        simp [hlt]
    · rw [if_neg hk, List.append_nil]
      obtain ⟨hwf, hi, hv, hs⟩ := h
      obtain ⟨fk, fv, -, fs⟩ := get_frame c k r
      have hne : indexOf k c.keys ≠ some i := fun hki => hk (indexOf_eq_of_same hi hki)
      exact ⟨get_wf hwf k r, by rw [fk]; exact hi, by rw [fv]; exact hv,
        by rw [fs i hne]; exact hs⟩
  cases op with
  | get k r => exact hget k r
  | has k =>
    show c.PendingAt key i (ws ++ [])
    rw [List.append_nil]; exact h
  | createSetter k =>
    have hg := hget k none
    show (c.createSetter k).cache.PendingAt key i (ws ++ if k = key then [none] else [])
    rcases createSetter_cache c k with hc | ⟨-, hc, -⟩
    · rw [hc]; exact hg
    · rw [hc]
      obtain ⟨hwf, hi, hv, hs⟩ := hg
      refine ⟨?_, indexOf_append_of_some hi _, append_getElem?_of_some hv _,
        append_getElem?_of_some hs _⟩
      unfold Cache.WF at hwf ⊢
      simp only [List.length_append, List.length_singleton]
      omega
  | invoke j v =>
    have hne : j ≠ i := fun hji => hop hji
    show (c.invokeSetter j v).cache.PendingAt key i (ws ++ [])
    rw [List.append_nil]
    obtain ⟨hwf, hi, hv, hs⟩ := h
    obtain ⟨fk, fv, fl, fs⟩ := invokeSetter_frame c j v
    refine ⟨?_, by rw [fk]; exact hi, ?_, by rw [fs i hne]; exact hs⟩
    · unfold Cache.WF at hwf ⊢
      rw [fk, fv, fl]
      simpa using hwf
    · rw [fv, List.getElem?_set_ne hne]; exact hv

theorem exec_ready {ρ : Type} {c : Cache ρ} {key : JSValue} {i : Nat} {b : ImageData}
    (h : c.ReadyAt key i b) (op : CacheOp ρ) (hop : ¬ op.invokes i) :
    (c.exec op).ReadyAt key i b := by
  have hget : ∀ (k : JSValue) (r : Option ρ), (c.get k r).cache.ReadyAt key i b := by
    intro k r
    obtain ⟨hwf, hi, hv⟩ := h
    obtain ⟨fk, fv, -, -⟩ := get_frame c k r
    exact ⟨get_wf hwf k r, by rw [fk]; exact hi, by rw [fv]; exact hv⟩
  cases op with
  | get k r => exact hget k r
  | has k => exact h
  | createSetter k =>
    have hg := hget k none
    show (c.createSetter k).cache.ReadyAt key i b
    rcases createSetter_cache c k with hc | ⟨-, hc, -⟩
    · rw [hc]; exact hg
    · rw [hc]
      obtain ⟨hwf, hi, hv⟩ := hg
      refine ⟨?_, indexOf_append_of_some hi _, append_getElem?_of_some hv _⟩
      unfold Cache.WF at hwf ⊢
      simp only [List.length_append, List.length_singleton]
      omega
  | invoke j v =>
    have hne : j ≠ i := fun hji => hop hji
    show (c.invokeSetter j v).cache.ReadyAt key i b
    obtain ⟨hwf, hi, hv⟩ := h
    obtain ⟨fk, fv, fl, -⟩ := invokeSetter_frame c j v
    refine ⟨?_, by rw [fk]; exact hi, ?_⟩
    · unfold Cache.WF at hwf ⊢
      rw [fk, fv, fl]
      simpa using hwf
    · rw [fv, List.getElem?_set_ne hne]; exact hv

theorem run_pending {ρ : Type} (ops : List (CacheOp ρ)) {c : Cache ρ} {key : JSValue}
    {i : Nat} {ws : List (Option ρ)} (h : c.PendingAt key i ws)
    (hops : ∀ op ∈ ops, ¬ op.invokes i) :
    (c.run ops).PendingAt key i (ws ++ ops.flatMap (registered key)) := by
  induction ops generalizing c ws with
  | nil => simpa [Cache.run] using h
  | cons op rest ih =>
    have h1 := exec_pending h op (hops op (List.mem_cons_self _ _))
    have h2 := ih h1 (fun o ho => hops o (List.mem_cons_of_mem _ ho))
    simpa [Cache.run, List.flatMap_cons, List.append_assoc] using h2

theorem run_ready {ρ : Type} (ops : List (CacheOp ρ)) {c : Cache ρ} {key : JSValue}
    {i : Nat} {b : ImageData} (h : c.ReadyAt key i b)
    (hops : ∀ op ∈ ops, ¬ op.invokes i) :
    (c.run ops).ReadyAt key i b := by
  induction ops generalizing c with
  | nil => simpa [Cache.run] using h
  | cons op rest ih =>
    have h1 := exec_ready h op (hops op (List.mem_cons_self _ _))
    have h2 := ih h1 (fun o ho => hops o (List.mem_cons_of_mem _ ho))
    simpa [Cache.run] using h2

theorem callWaiters_functions {ρ : Type} (b : ImageData) (rs : List ρ) :
    callWaiters b (rs.map some) = (rs.map fun r => { resolve := r, value := some b }, true) := by
  induction rs with
  | nil => rfl
  | cons r rest ih =>
    simp only [List.map_cons, callWaiters, ih]

theorem invokeSetter_pending {ρ : Type} {c : Cache ρ} {key : JSValue} {i : Nat}
    {ws : List (Option ρ)} (h : c.PendingAt key i ws) (b : ImageData) :
    (c.invokeSetter i b).calls = (callWaiters b ws).1 ∧
    ((c.invokeSetter i b).ret = some () ↔ (callWaiters b ws).2 = true) ∧
    (c.invokeSetter i b).cache.ReadyAt key i b := by
  obtain ⟨hwf, hi, hv, hs⟩ := h
  obtain ⟨fk, fv, fl, -⟩ := invokeSetter_frame c i b
  have hlt : i < c.values.length := by rw [hwf.1]; exact indexOf_lt hi
  have hready : (c.invokeSetter i b).cache.ReadyAt key i b := by
    refine ⟨?_, by rw [fk]; exact hi, ?_⟩
    · unfold Cache.WF at hwf ⊢
      rw [fk, fv, fl]
      simpa using hwf
    · rw [fv]; simp [hlt]
  refine ⟨?_, ?_, hready⟩
  · unfold Cache.invokeSetter
    simp only [hs]
    split <;> rfl
  · unfold Cache.invokeSetter
    simp only [hs]
    split
    · next hc => simp [hc]
    · next hc => simp [hc]

/-- C14 (failing input). On an empty cache, `createSetter("a")` twice: the
second call does not return early, it returns a setter for index 1 and the
cache holds the key `"a"` twice (and an `undefined` among the waiters of the
first entry). -/
theorem createSetter_duplicates_key :
    ((createCache : Cache Nat).createSetter (JSValue.str "a")).ret = some (some 0) ∧
    (((createCache : Cache Nat).createSetter (JSValue.str "a")).cache.createSetter
        (JSValue.str "a")).ret = some (some 1) ∧
    (((createCache : Cache Nat).createSetter (JSValue.str "a")).cache.createSetter
        (JSValue.str "a")).cache.keys = [JSValue.str "a", JSValue.str "a"] ∧
    (((createCache : Cache Nat).createSetter (JSValue.str "a")).cache.createSetter
        (JSValue.str "a")).cache.subscribes = [some [none], some []] ∧
    ¬ (((createCache : Cache Nat).createSetter (JSValue.str "a")).cache.createSetter
        (JSValue.str "a")).cache.keys.Nodup := by
  decide!

/-- C16. An entry reserved with `createSetter(key)` on a cache that did not
hold `key`.  While it is pending (after any operations other than a call of
its setter), `get(key, r)` calls nothing and appends `r` to the waiters.  Once
the setter has been called with `b`, after any further operations other than
another call of that setter, the entry holds `b`, `has(key)` is true, and
`get(key, r)` calls `r` once with `b` and leaves the arrays as they are. -/
theorem entry_pending_then_ready {ρ : Type} (c : Cache ρ) (key : JSValue)
    (ops1 ops2 : List (CacheOp ρ)) (b : ImageData)
    (hwf : c.WF) (hk : strictEq key key = true) (habs : c.has key = false)
    (hops1 : ∀ op ∈ ops1, ¬ op.invokes c.keys.length)
    (hops2 : ∀ op ∈ ops2, ¬ op.invokes c.keys.length) :
    (((c.createSetter key).cache.run ops1).values[c.keys.length]? = some Slot.pending ∧
      ∃ ws, ((c.createSetter key).cache.run ops1).subscribes[c.keys.length]? = some (some ws) ∧
        ∀ r : ρ,
          (((c.createSetter key).cache.run ops1).get key (some r)).calls = [] ∧
          (((c.createSetter key).cache.run ops1).get key (some r)).cache.subscribes[c.keys.length]?
            = some (some (ws ++ [some r]))) ∧
    (((((c.createSetter key).cache.run ops1).invokeSetter c.keys.length b).cache.run
        ops2).values[c.keys.length]? = some (Slot.ready b) ∧
      ((((c.createSetter key).cache.run ops1).invokeSetter c.keys.length b).cache.run
        ops2).has key = true ∧
      ∀ r : ρ,
        ((((c.createSetter key).cache.run ops1).invokeSetter c.keys.length b).cache.run
            ops2).get key (some r)
          = { cache := (((c.createSetter key).cache.run ops1).invokeSetter
                c.keys.length b).cache.run ops2
              calls := [{ resolve := r, value := some b }]
              ret := some JSValue.undefined }) := by
  obtain ⟨-, -, hp⟩ := createSetter_fresh hwf hk habs
  have hrun := run_pending ops1 hp hops1
  obtain ⟨-, -, hready⟩ := invokeSetter_pending hrun b
  have hrun2 := run_ready ops2 hready hops2
  constructor
  · refine ⟨hrun.2.2.1, _, hrun.2.2.2, ?_⟩
    intro r
    rw [get_of_pending hrun (some r)]
    have hlt : c.keys.length < ((c.createSetter key).cache.run ops1).subscribes.length := by
      rw [hrun.1.2]; exact indexOf_lt hrun.2.1
    refine ⟨rfl, ?_⟩
    simp [hlt]
  · refine ⟨hrun2.2.2, ?_, fun r => get_of_ready hrun2 r⟩
    unfold Cache.has
    rw [hrun2.2.1]
    rfl

/-- C16 (witness). On an empty cache: reserve `"a"`, register function 1, call
the setter, then reserve `"b"`. -/
theorem entry_pending_then_ready_witness :
    Cache.has
      (((((createCache : Cache Nat).createSetter (JSValue.str "a")).cache.run
        [CacheOp.get (JSValue.str "a") (some 1)]).invokeSetter 0 ⟨1, 1, [7]⟩).cache.run
        [CacheOp.createSetter (JSValue.str "b")])
      (JSValue.str "a") = true :=
  (entry_pending_then_ready (createCache : Cache Nat) (JSValue.str "a")
    [CacheOp.get (JSValue.str "a") (some 1)] [CacheOp.createSetter (JSValue.str "b")]
    ⟨1, 1, [7]⟩ ⟨rfl, rfl⟩ (by decide!) (by decide!)
    (by
      intro op hop
      simp only [List.mem_singleton] at hop
      subst hop
      exact id)
    (by
      intro op hop
      simp only [List.mem_singleton] at hop
      subst hop
      exact id)).2.2.1

/-! ## `downscale`: rejection and single flight -/

/-- C12. When `validateArguments` returns an error, `downscale` returns the
rejected promise and changes nothing: the cache and the canvas are not
created, no cache entry or waiter is added and no acquisition is started. -/
theorem downscale_rejection_has_no_effect (w : World) (id : Nat) (args : List JSValue)
    (err : TypeError) (h : validateArguments args = some err) :
    downscale w id args = (w, CallResult.rejected err) ∧
    w.step (Step.call id args) = w := by
  have hd : downscale w id args = (w, CallResult.rejected err) := by
    unfold downscale
    simp only [h]
  exact ⟨hd, by simp only [World.step, hd]⟩

/-- C12 (witness). The first call ever, with only 2 arguments: the promise is
rejected and the state is still the initial one (no canvas, no cache). -/
theorem downscale_rejection_has_no_effect_witness :
    downscale World.initial 1 [JSValue.str "a.jpg", JSValue.num (JSNum.fin 100)]
      = (World.initial,
          CallResult.rejected ⟨"3 arguments required, but only 2 present."⟩) ∧
    World.initial.step (Step.call 1 [JSValue.str "a.jpg", JSValue.num (JSNum.fin 100)])
      = World.initial :=
  downscale_rejection_has_no_effect World.initial 1
    [JSValue.str "a.jpg", JSValue.num (JSNum.fin 100)]
    ⟨"3 arguments required, but only 2 present."⟩ (by decide!)

theorem getElem?_append_singleton {α : Type} (l : List α) (a x : α) (j : Nat) :
    (l ++ [a])[j]? = some x ↔ l[j]? = some x ∨ (j = l.length ∧ x = a) := by
  by_cases hj : j < l.length
  · rw [List.getElem?_append_left hj]
    constructor
    · exact Or.inl
    · rintro (h | ⟨h, -⟩)
      · exact h
      · omega
  · have hn : l[j]? = none := List.getElem?_eq_none (by omega)
    rw [List.getElem?_append_right (by omega), hn]
    by_cases hje : j = l.length
    · subst hje
      simp [eq_comm]
    · have : j - l.length ≠ 0 := by omega
      obtain ⟨m, hm⟩ := Nat.exists_eq_succ_of_ne_zero this
      rw [hm]
      simp [hje]

theorem indexOf_none_not_mem {key : JSValue} {l : List JSValue}
    (h : indexOf key l = none) (hk : strictEq key key = true) : key ∉ l := by
  induction l with
  | nil => simp
  | cons k ks ih =>
    rw [indexOf_cons] at h
    by_cases hs : strictEq k key = true
    · rw [if_pos hs] at h; cases h
    · rw [if_neg hs] at h
      have hn : indexOf key ks = none := by
        cases hr : indexOf key ks with
        | none => rfl
        | some j => rw [hr] at h; simp at h
      intro hmem
      rcases List.mem_cons.mp hmem with he | ht
      · exact hs (by rw [← he]; exact hk)
      · exact ih hn ht

theorem indexOf_of_mem {key : JSValue} {l : List JSValue}
    (h : key ∈ l) (hk : strictEq key key = true) : ∃ i, indexOf key l = some i := by
  cases hr : indexOf key l with
  | none => exact absurd h (indexOf_none_not_mem hr hk)
  | some i => exact ⟨i, rfl⟩

theorem nodup_index_unique {l : List JSValue} (hn : l.Nodup) {i j : Nat} {k : JSValue}
    (hi : l[i]? = some k) (hj : l[j]? = some k) : i = j := by
  have hil : i < l.length := by
    by_contra hc
    rw [List.getElem?_eq_none (by omega)] at hi
    cases hi
  have hjl : j < l.length := by
    by_contra hc
    rw [List.getElem?_eq_none (by omega)] at hj
    cases hj
  rw [List.getElem?_eq_getElem hil] at hi
  rw [List.getElem?_eq_getElem hjl] at hj
  exact (List.Nodup.getElem_inj_iff hn).mp (by rw [Option.some.inj hi, Option.some.inj hj])

theorem source_valid {args : List JSValue} (h : validateArguments args = none) :
    (∃ t, detectSourceType (argAt args 0) = some t) ∧
      strictEq (argAt args 0) (argAt args 0) = true := by
  have ht : truthyStr (detectSourceType (argAt args 0)) = true := by
    unfold validateArguments at h
    by_contra hc
    split at h
    · cases h
    · simp [hc] at h
  cases hv : argAt args 0 <;> rw [hv] at ht <;>
    simp [detectSourceType, truthyStr, strictEq] at ht ⊢

theorem callWaiters_mem {ρ : Type} (b : ImageData) (ws : List (Option ρ)) :
    ∀ call ∈ (callWaiters b ws).1, call.value = some b ∧ some call.resolve ∈ ws := by
  induction ws with
  | nil => intro call h; simp [callWaiters] at h
  | cons x rest ih =>
    intro call h
    cases x with
    | none => simp [callWaiters] at h
    | some f =>
      simp only [callWaiters, List.mem_cons] at h
      rcases h with h | h
      · subst h
        exact ⟨rfl, List.mem_cons_self _ _⟩
      · exact ⟨(ih call h).1, List.mem_cons_of_mem _ (ih call h).2⟩

theorem invokeSetter_calls {ρ : Type} (c : Cache ρ) (i : Nat) (b : ImageData) :
    ∀ call ∈ (c.invokeSetter i b).calls, call.value = some b ∧
      ∃ ws, c.subscribes[i]? = some (some ws) ∧ some call.resolve ∈ ws := by
  intro call h
  unfold Cache.invokeSetter at h
  split at h
  · next ws hs =>
    have hm : call ∈ (callWaiters b ws).1 := by
      split at h <;> exact h
    exact ⟨(callWaiters_mem b ws call hm).1, ws, hs, (callWaiters_mem b ws call hm).2⟩
  · simp at h

theorem invokeSetter_subscribes_at {ρ : Type} (c : Cache ρ) (i : Nat) (b : ImageData)
    (ws : List (Option ρ))
    (h : (c.invokeSetter i b).cache.subscribes[i]? = some (some ws)) :
    ws = [] ∨ c.subscribes[i]? = some (some ws) := by
  unfold Cache.invokeSetter at h
  split at h
  · next ws0 hs =>
    split at h
    · have hlt : i < c.subscribes.length := by
        by_contra hc
        rw [List.getElem?_eq_none (by omega)] at hs
        cases hs
      simp only [List.getElem?_set_eq_of_lt, hlt, List.getElem?_set_self, Option.some.injEq] at h
      left
      by_cases he : ws0.isEmpty = true
      · rw [if_pos he] at h
        exact (Option.some.inj h).symm
      · rw [if_neg he] at h
        cases h
    · exact Or.inr h
  · exact Or.inr h

theorem inv_initial : World.initial.Inv where
  wf := ⟨rfl, rfl⟩
  started_eq := rfl
  nodup := List.nodup_nil
  keys_ok := by intro k hk; cases hk
  loading_ok := by intro e he; cases he
  producing_ok := by intro p hp; cases hp
  loading_unique := by intro e he; cases he
  loading_producing := by intro e he; cases he
  producing_unique := by intro p hp; cases hp
  waiters_ok := by
    intro i ws h
    simp [World.initial, createCache] at h
  pending_array := by
    intro i h
    simp [World.initial, createCache] at h
  ready_ok := by
    intro i b h
    simp [World.initial, createCache] at h
  acquired_fun := by intro a ha; cases ha
  acquired_keys := by intro a ha; cases ha
  delivered_ok := by intro d hd; cases hd

theorem mem_of_getElem? {α : Type} {l : List α} {i : Nat} {a : α} (h : l[i]? = some a) :
    a ∈ l := by
  have hil : i < l.length := by
    by_contra hc
    rw [List.getElem?_eq_none (by omega)] at h
    cases h
  rw [List.getElem?_eq_getElem hil] at h
  rw [← Option.some.inj h]
  exact List.getElem_mem hil

theorem inv_loaded {w : World} (h : w.Inv) (r : Request) (sc : Option Nat)
    (img : ImageData) : (w.loaded r sc img).Inv := by
  unfold World.loaded
  by_cases hm : (r, sc) ∈ w.loading
  · rw [if_pos hm]
    obtain ⟨i0, hsc, hkey0, hval0, hacq0⟩ := h.loading_ok (r, sc) hm
    have hdiff : ∀ e ∈ w.loading.filter (fun e => decide (e ≠ (r, sc))),
        e ∈ w.loading ∧ e.1.source ≠ r.source := by
      intro e he
      have he' := List.mem_filter.mp he
      have hne : e ≠ (r, sc) := by simpa using he'.2
      exact ⟨he'.1, fun hs => hne (h.loading_unique e he'.1 (r, sc) hm hs)⟩
    exact
      { wf := h.wf
        started_eq := h.started_eq
        nodup := h.nodup
        keys_ok := h.keys_ok
        loading_ok := by
          intro e he
          obtain ⟨hel, hne⟩ := hdiff e he
          obtain ⟨i, h1, h2, h3, h4⟩ := h.loading_ok e hel
          refine ⟨i, h1, h2, h3, ?_⟩
          intro a ha
          rcases List.mem_append.mp ha with ha | ha
          · exact h4 a ha
          · rw [List.mem_singleton] at ha
            rw [ha]
            exact fun hs => hne hs.symm
        producing_ok := by
          intro p hp
          rcases List.mem_append.mp hp with hp | hp
          · obtain ⟨i, h1, h2, h3, h4⟩ := h.producing_ok p hp
            exact ⟨i, h1, h2, h3, List.mem_append_left _ h4⟩
          · rw [List.mem_singleton] at hp
            rw [hp]
            exact ⟨i0, hsc, hkey0, hval0, List.mem_append_right _ (List.mem_singleton_self _)⟩
        loading_unique := by
          intro e1 he1 e2 he2
          exact h.loading_unique e1 (hdiff e1 he1).1 e2 (hdiff e2 he2).1
        loading_producing := by
          intro e he p hp
          rcases List.mem_append.mp hp with hp | hp
          · exact h.loading_producing e (hdiff e he).1 p hp
          · rw [List.mem_singleton] at hp
            rw [hp]
            exact (hdiff e he).2
        producing_unique := by
          intro p1 hp1 p2 hp2 hs
          rcases List.mem_append.mp hp1 with hp1 | hp1
          · rcases List.mem_append.mp hp2 with hp2 | hp2
            · exact h.producing_unique p1 hp1 p2 hp2 hs
            · rw [List.mem_singleton] at hp2
              rw [hp2] at hs
              exact absurd hs.symm (h.loading_producing (r, sc) hm p1 hp1)
          · rw [List.mem_singleton] at hp1
            rcases List.mem_append.mp hp2 with hp2 | hp2
            · rw [hp1] at hs
              exact absurd hs (h.loading_producing (r, sc) hm p2 hp2)
            · rw [List.mem_singleton] at hp2
              rw [hp1, hp2]
        waiters_ok := h.waiters_ok
        pending_array := h.pending_array
        ready_ok := by
          intro i b hb
          obtain ⟨k, hk, hmem⟩ := h.ready_ok i b hb
          exact ⟨k, hk, List.mem_append_left _ hmem⟩
        acquired_fun := by
          intro a1 ha1 a2 ha2 hs
          rcases List.mem_append.mp ha1 with ha1 | ha1
          · rcases List.mem_append.mp ha2 with ha2 | ha2
            · exact h.acquired_fun a1 ha1 a2 ha2 hs
            · rw [List.mem_singleton] at ha2
              rw [ha2] at hs
              exact absurd hs (hacq0 a1 ha1)
          · rw [List.mem_singleton] at ha1
            rcases List.mem_append.mp ha2 with ha2 | ha2
            · rw [ha1] at hs
              exact absurd hs.symm (hacq0 a2 ha2)
            · rw [List.mem_singleton] at ha2
              rw [ha1, ha2]
        acquired_keys := by
          intro a ha
          rcases List.mem_append.mp ha with ha | ha
          · exact h.acquired_keys a ha
          · rw [List.mem_singleton] at ha
            rw [ha]
            exact mem_of_getElem? hkey0
        delivered_ok := by
          intro d hd
          rcases List.mem_append.mp hd with hd | hd
          · obtain ⟨b, hb, hmem⟩ := h.delivered_ok d hd
            exact ⟨b, hb, List.mem_append_left _ hmem⟩
          · rw [List.mem_singleton] at hd
            rw [hd]
            exact ⟨img, rfl, List.mem_append_right _ (List.mem_singleton_self _)⟩ }
  · rw [if_neg hm]
    exact h

theorem inv_produced {w : World} (h : w.Inv) (r : Request) (sc : Option Nat)
    (img : ImageData) : (w.produced r sc img).Inv := by
  unfold World.produced
  by_cases hm : (r, sc, img) ∈ w.producing
  · rw [if_pos hm]
    have hsub : ∀ p ∈ w.producing.filter (fun e => decide (e ≠ (r, sc, img))),
        p ∈ w.producing ∧ p.1.source ≠ r.source := by
      intro p hp
      have hp' := List.mem_filter.mp hp
      have hne : p ≠ (r, sc, img) := by simpa using hp'.2
      exact ⟨hp'.1, fun hs => hne (h.producing_unique p hp'.1 (r, sc, img) hm hs)⟩
    obtain ⟨i0, hsc, hkey0, hval0, hacq0⟩ := h.producing_ok (r, sc, img) hm
    simp only at hsc hkey0 hacq0
    subst hsc
    simp only
    obtain ⟨fk, fv, fl, fs⟩ := invokeSetter_frame (w.cache.getD createCache) i0 img
    have hlt : i0 < (w.cache.getD createCache).values.length := by
      by_contra hc
      rw [List.getElem?_eq_none (by omega)] at hval0
      cases hval0
    have hidx : ∀ {j : Nat} {k : JSValue}, (w.cache.getD createCache).keys[j]? = some k →
        k ≠ r.source → i0 ≠ j := by
      intro j k hj hk hij
      rw [← hij, hkey0] at hj
      exact hk (Option.some.inj hj).symm
    exact
      { wf := by
          have := h.wf
          unfold Cache.WF at this ⊢
          simp only [Option.getD_some]
          rw [fk, fv, fl]
          simpa using this
        started_eq := by
          simp only [Option.getD_some]
          rw [fk]; exact h.started_eq
        nodup := by
          simp only [Option.getD_some]
          rw [fk]; exact h.nodup
        keys_ok := by
          simp only [Option.getD_some]
          rw [fk]; exact h.keys_ok
        loading_ok := by
          intro e he
          obtain ⟨i, h1, h2, h3, h4⟩ := h.loading_ok e he
          have hne : i0 ≠ i := hidx h2 (h.loading_producing e he (r, some i0, img) hm)
          refine ⟨i, h1, ?_, ?_, h4⟩
          · simp only [Option.getD_some]
            rw [fk]; exact h2
          · simp only [Option.getD_some]
            rw [fv, List.getElem?_set_ne hne]; exact h3
        producing_ok := by
          intro p hp
          obtain ⟨hpm, hps⟩ := hsub p hp
          obtain ⟨i, h1, h2, h3, h4⟩ := h.producing_ok p hpm
          have hne : i0 ≠ i := hidx h2 hps
          refine ⟨i, h1, ?_, ?_, h4⟩
          · simp only [Option.getD_some]
            rw [fk]; exact h2
          · simp only [Option.getD_some]
            rw [fv, List.getElem?_set_ne hne]; exact h3
        loading_unique := h.loading_unique
        loading_producing := by
          intro e he p hp
          exact h.loading_producing e he p (hsub p hp).1
        producing_unique := by
          intro p1 hp1 p2 hp2
          exact h.producing_unique p1 (hsub p1 hp1).1 p2 (hsub p2 hp2).1
        waiters_ok := by
          intro i ws hws x hx
          simp only [Option.getD_some] at hws ⊢
          rw [fk]
          by_cases hi : i0 = i
          · subst hi
            rcases invokeSetter_subscribes_at _ _ _ _ hws with he | ho
            · rw [he] at hx; cases hx
            · exact h.waiters_ok i0 ws ho x hx
          · rw [fs i hi] at hws
            exact h.waiters_ok i ws hws x hx
        pending_array := by
          intro i hi
          simp only [Option.getD_some] at hi ⊢
          rw [fv] at hi
          by_cases hii : i0 = i
          · subst hii
            rw [List.getElem?_set_self hlt] at hi
            cases hi
          · rw [List.getElem?_set_ne hii] at hi
            rw [fs i hii]
            exact h.pending_array i hi
        ready_ok := by
          intro i b hb
          simp only [Option.getD_some] at hb ⊢
          rw [fk]
          rw [fv] at hb
          by_cases hii : i0 = i
          · subst hii
            rw [List.getElem?_set_self hlt] at hb
            cases hb
            exact ⟨r.source, hkey0, hacq0⟩
          · rw [List.getElem?_set_ne hii] at hb
            exact h.ready_ok i b hb
        acquired_fun := h.acquired_fun
        acquired_keys := by
          simp only [Option.getD_some]
          rw [fk]; exact h.acquired_keys
        delivered_ok := by
          intro d hd
          rcases List.mem_append.mp hd with hd | hd
          · exact h.delivered_ok d hd
          · unfold deliveries at hd
            obtain ⟨call, hcall, rfl⟩ := List.mem_map.mp hd
            obtain ⟨hv, ws, hws, hmem⟩ := invokeSetter_calls _ _ _ call hcall
            obtain ⟨rq, hrq, hk⟩ := h.waiters_ok i0 ws hws _ hmem
            cases hrq
            rw [hkey0] at hk
            refine ⟨img, hv, ?_⟩
            simp only
            rw [← Option.some.inj hk]
            exact hacq0 }
  · rw [if_neg hm]
    exact h

theorem createSetter_fresh_cache {ρ : Type} {c : Cache ρ} {key : JSValue}
    (habs : c.has key = false) :
    c.createSetter key =
      { cache := { keys := c.keys ++ [key], values := c.values ++ [Slot.pending],
                   subscribes := c.subscribes ++ [some []] }
        calls := [], ret := some (some c.keys.length) } := by
  have hidx : indexOf key c.keys = none := by
    unfold Cache.has at habs
    cases h : indexOf key c.keys with
    | none => rfl
    | some j => rw [h] at habs; simp at habs
  have hg : c.get key none = { cache := c, calls := [], ret := some JSValue.undefined } := by
    unfold Cache.get
    simp only [hidx]
  unfold Cache.createSetter
  simp only [hg, JSValue.truthy]
  rfl

theorem downscale_cached_pending {w : World} {id : Nat} {args : List JSValue} {i : Nat}
    {ws : List (Option Request)} (hv : validateArguments args = none)
    (hp : (w.cache.getD createCache).PendingAt (argAt args 0) i ws) :
    downscale w id args =
      ({ w with
          canvas := true
          cache := some
            { (w.cache.getD createCache) with
              subscribes := (w.cache.getD createCache).subscribes.set i
                (some (ws ++ [some { id := id, args := args }])) }
          delivered := w.delivered ++ [] }, CallResult.promise) := by
  have hhas : (w.cache.getD createCache).has (argAt args 0) = true := by
    unfold Cache.has; rw [hp.2.1]; rfl
  unfold downscale
  simp only [hv, hhas, if_true, get_of_pending hp, deliveries, List.map_nil]

theorem downscale_cached_ready {w : World} {id : Nat} {args : List JSValue} {i : Nat}
    {b : ImageData} (hv : validateArguments args = none)
    (hr : (w.cache.getD createCache).ReadyAt (argAt args 0) i b) :
    downscale w id args =
      ({ w with
          canvas := true
          cache := some (w.cache.getD createCache)
          delivered := w.delivered ++ [({ id := id, args := args }, some b)] },
        CallResult.promise) := by
  have hhas : (w.cache.getD createCache).has (argAt args 0) = true := by
    unfold Cache.has; rw [hr.2.1]; rfl
  unfold downscale
  simp only [hv, hhas, if_true, get_of_ready hr, deliveries, List.map_cons, List.map_nil]

theorem downscale_fresh {w : World} {id : Nat} {args : List JSValue}
    (hv : validateArguments args = none)
    (habs : (w.cache.getD createCache).has (argAt args 0) = false) :
    downscale w id args =
      ({ w with
          canvas := true
          cache := some
            { keys := (w.cache.getD createCache).keys ++ [argAt args 0]
              values := (w.cache.getD createCache).values ++ [Slot.pending]
              subscribes := (w.cache.getD createCache).subscribes ++ [some []] }
          loading := w.loading ++
            [({ id := id, args := args }, some (w.cache.getD createCache).keys.length)]
          started := w.started ++ [argAt args 0] }, CallResult.promise) := by
  obtain ⟨⟨t, ht⟩, -⟩ := source_valid hv
  unfold downscale
  simp only [hv, habs, createSetter_fresh_cache habs, ht]
  rfl

theorem cached_cases {w : World} (h : w.Inv) {key : JSValue}
    (hhas : (w.cache.getD createCache).has key = true) :
    (∃ i ws, (w.cache.getD createCache).PendingAt key i ws) ∨
    (∃ i b, (w.cache.getD createCache).ReadyAt key i b ∧ (key, b) ∈ w.acquired) := by
  have hi : ∃ i, indexOf key (w.cache.getD createCache).keys = some i := by
    unfold Cache.has at hhas
    cases hr : indexOf key (w.cache.getD createCache).keys with
    | none => rw [hr] at hhas; cases hhas
    | some i => exact ⟨i, rfl⟩
  obtain ⟨i, hi⟩ := hi
  have hlt : i < (w.cache.getD createCache).values.length := by
    rw [h.wf.1]; exact indexOf_lt hi
  cases hs : (w.cache.getD createCache).values[i] with
  | pending =>
    have hv : (w.cache.getD createCache).values[i]? = some Slot.pending := by
      rw [List.getElem?_eq_getElem hlt, hs]
    obtain ⟨ws, hws⟩ := h.pending_array i hv
    exact Or.inl ⟨i, ws, h.wf, hi, hv, hws⟩
  | ready b =>
    have hv : (w.cache.getD createCache).values[i]? = some (Slot.ready b) := by
      rw [List.getElem?_eq_getElem hlt, hs]
    obtain ⟨k, hk, hmem⟩ := h.ready_ok i b hv
    rw [indexOf_getElem hi] at hk
    cases hk
    exact Or.inr ⟨i, b, ⟨h.wf, hi, hv⟩, hmem⟩

theorem inv_call_pending {w : World} (h : w.Inv) (id : Nat) {args : List JSValue} {i : Nat}
    {ws : List (Option Request)}
    (hp : (w.cache.getD createCache).PendingAt (argAt args 0) i ws) :
    World.Inv
      { w with
        canvas := true
        cache := some
          { (w.cache.getD createCache) with
            subscribes := (w.cache.getD createCache).subscribes.set i
              (some (ws ++ [some { id := id, args := args }])) }
        delivered := w.delivered ++ [] } := by
  obtain ⟨hwf, hi, hv, hs⟩ := hp
  have hlt : i < (w.cache.getD createCache).subscribes.length := by
    rw [hwf.2]; exact indexOf_lt hi
  exact
    { wf := by
        unfold Cache.WF at hwf ⊢
        simpa using hwf
      started_eq := h.started_eq
      nodup := h.nodup
      keys_ok := h.keys_ok
      loading_ok := h.loading_ok
      producing_ok := h.producing_ok
      loading_unique := h.loading_unique
      loading_producing := h.loading_producing
      producing_unique := h.producing_unique
      waiters_ok := by
        intro j ws' hws x hx
        simp only [Option.getD_some] at hws ⊢
        by_cases hj : i = j
        · subst hj
          rw [List.getElem?_set_self hlt] at hws
          cases hws
          rcases List.mem_append.mp hx with hx | hx
          · exact h.waiters_ok i ws hs x hx
          · rw [List.mem_singleton] at hx
            exact ⟨_, hx, indexOf_getElem hi⟩
        · rw [List.getElem?_set_ne hj] at hws
          exact h.waiters_ok j ws' hws x hx
      pending_array := by
        intro j hj
        simp only [Option.getD_some] at hj ⊢
        by_cases hij : i = j
        · subst hij
          exact ⟨_, List.getElem?_set_self hlt⟩
        · rw [List.getElem?_set_ne hij]
          exact h.pending_array j hj
      ready_ok := h.ready_ok
      acquired_fun := h.acquired_fun
      acquired_keys := h.acquired_keys
      delivered_ok := by
        intro d hd
        rw [List.append_nil] at hd
        exact h.delivered_ok d hd }

theorem inv_call_ready {w : World} (h : w.Inv) (id : Nat) {args : List JSValue}
    {b : ImageData} (hb : (argAt args 0, b) ∈ w.acquired) :
    World.Inv
      { w with
        canvas := true
        cache := some (w.cache.getD createCache)
        delivered := w.delivered ++ [({ id := id, args := args }, some b)] } :=
  { wf := h.wf
    started_eq := h.started_eq
    nodup := h.nodup
    keys_ok := h.keys_ok
    loading_ok := h.loading_ok
    producing_ok := h.producing_ok
    loading_unique := h.loading_unique
    loading_producing := h.loading_producing
    producing_unique := h.producing_unique
    waiters_ok := h.waiters_ok
    pending_array := h.pending_array
    ready_ok := h.ready_ok
    acquired_fun := h.acquired_fun
    acquired_keys := h.acquired_keys
    delivered_ok := by
      intro d hd
      rcases List.mem_append.mp hd with hd | hd
      · exact h.delivered_ok d hd
      · rw [List.mem_singleton] at hd
        rw [hd]
        exact ⟨b, rfl, hb⟩ }

theorem inv_call_fresh {w : World} (h : w.Inv) (id : Nat) {args : List JSValue}
    (hk : strictEq (argAt args 0) (argAt args 0) = true)
    (habs : (w.cache.getD createCache).has (argAt args 0) = false) :
    World.Inv
      { w with
        canvas := true
        cache := some
          { keys := (w.cache.getD createCache).keys ++ [argAt args 0]
            values := (w.cache.getD createCache).values ++ [Slot.pending]
            subscribes := (w.cache.getD createCache).subscribes ++ [some []] }
        loading := w.loading ++
          [({ id := id, args := args }, some (w.cache.getD createCache).keys.length)]
        started := w.started ++ [argAt args 0] } := by
  have hnot : argAt args 0 ∉ (w.cache.getD createCache).keys := by
    apply indexOf_none_not_mem _ hk
    unfold Cache.has at habs
    cases hr : indexOf (argAt args 0) (w.cache.getD createCache).keys with
    | none => rfl
    | some j => rw [hr] at habs; cases habs
  have hwf := h.wf
  have hloadkey : ∀ e ∈ w.loading, e.1.source ≠ argAt args 0 := by
    intro e he hs
    obtain ⟨i, -, h2, -, -⟩ := h.loading_ok e he
    exact hnot (hs ▸ mem_of_getElem? h2)
  have hprodkey : ∀ p ∈ w.producing, p.1.source ≠ argAt args 0 := by
    intro p hp hs
    obtain ⟨i, -, h2, -, -⟩ := h.producing_ok p hp
    exact hnot (hs ▸ mem_of_getElem? h2)
  exact
    { wf := by
        unfold Cache.WF at hwf ⊢
        simp only [Option.getD_some, List.length_append, List.length_singleton]
        omega
      started_eq := by
        simp only [Option.getD_some]
        rw [h.started_eq]
      nodup := by
        simp only [Option.getD_some]
        rw [List.nodup_append]
        refine ⟨h.nodup, List.nodup_singleton _, ?_⟩
        intro a ha hb
        rw [List.mem_singleton] at hb
        exact hnot (hb ▸ ha)
      keys_ok := by
        intro k hkm
        simp only [Option.getD_some] at hkm
        rcases List.mem_append.mp hkm with hkm | hkm
        · exact h.keys_ok k hkm
        · rw [List.mem_singleton] at hkm
          rw [hkm]; exact hk
      loading_ok := by
        intro e he
        simp only [Option.getD_some]
        rcases List.mem_append.mp he with he | he
        · obtain ⟨i, h1, h2, h3, h4⟩ := h.loading_ok e he
          exact ⟨i, h1, append_getElem?_of_some h2 _, append_getElem?_of_some h3 _, h4⟩
        · rw [List.mem_singleton] at he
          rw [he]
          refine ⟨_, rfl, ?_, ?_, ?_⟩
          · exact (getElem?_append_singleton _ _ _ _).mpr (Or.inr ⟨rfl, rfl⟩)
          · exact (getElem?_append_singleton _ _ _ _).mpr (Or.inr ⟨hwf.1.symm, rfl⟩)
          · intro a ha hs
            have hs' : a.1 = argAt args 0 := hs
            exact hnot (hs' ▸ h.acquired_keys a ha)
      producing_ok := by
        intro p hp
        simp only [Option.getD_some]
        obtain ⟨i, h1, h2, h3, h4⟩ := h.producing_ok p hp
        exact ⟨i, h1, append_getElem?_of_some h2 _, append_getElem?_of_some h3 _, h4⟩
      loading_unique := by
        intro e1 he1 e2 he2 hs
        rcases List.mem_append.mp he1 with he1 | he1
        · rcases List.mem_append.mp he2 with he2 | he2
          · exact h.loading_unique e1 he1 e2 he2 hs
          · rw [List.mem_singleton] at he2
            rw [he2] at hs
            exact absurd hs (hloadkey e1 he1)
        · rw [List.mem_singleton] at he1
          rcases List.mem_append.mp he2 with he2 | he2
          · rw [he1] at hs
            exact absurd hs.symm (hloadkey e2 he2)
          · rw [List.mem_singleton] at he2
            rw [he1, he2]
      loading_producing := by
        intro e he p hp
        rcases List.mem_append.mp he with he | he
        · exact h.loading_producing e he p hp
        · rw [List.mem_singleton] at he
          rw [he]
          exact fun hs => hprodkey p hp hs.symm
      producing_unique := h.producing_unique
      waiters_ok := by
        intro j ws' hws x hx
        simp only [Option.getD_some] at hws ⊢
        rcases (getElem?_append_singleton _ _ _ _).mp hws with ho | ⟨-, hn⟩
        · obtain ⟨rq, h1, h2⟩ := h.waiters_ok j ws' ho x hx
          exact ⟨rq, h1, append_getElem?_of_some h2 _⟩
        · cases hn
          cases hx
      pending_array := by
        intro j hj
        simp only [Option.getD_some] at hj ⊢
        rcases (getElem?_append_singleton _ _ _ _).mp hj with ho | ⟨hjl, -⟩
        · obtain ⟨ws', hws⟩ := h.pending_array j ho
          exact ⟨ws', append_getElem?_of_some hws _⟩
        · exact ⟨[], (getElem?_append_singleton _ _ _ _).mpr
            (Or.inr ⟨by rw [hjl, hwf.1, hwf.2], rfl⟩)⟩
      ready_ok := by
        intro j b hb
        simp only [Option.getD_some] at hb ⊢
        rcases (getElem?_append_singleton _ _ _ _).mp hb with ho | ⟨-, hn⟩
        · obtain ⟨k, h1, h2⟩ := h.ready_ok j b ho
          exact ⟨k, append_getElem?_of_some h1 _, h2⟩
        · cases hn
      acquired_fun := h.acquired_fun
      acquired_keys := by
        intro a ha
        simp only [Option.getD_some]
        exact List.mem_append_left _ (h.acquired_keys a ha)
      delivered_ok := h.delivered_ok }

theorem inv_call {w : World} (h : w.Inv) (id : Nat) (args : List JSValue) :
    (downscale w id args).1.Inv := by
  cases hv : validateArguments args with
  | some err =>
    have hd : downscale w id args = (w, CallResult.rejected err) := by
      unfold downscale
      simp only [hv]
    rw [hd]; exact h
  | none =>
    by_cases hhas : (w.cache.getD createCache).has (argAt args 0) = true
    · rcases cached_cases h hhas with ⟨i, ws, hp⟩ | ⟨i, b, hr, hb⟩
      · rw [downscale_cached_pending hv hp]
        exact inv_call_pending h id hp
      · rw [downscale_cached_ready hv hr]
        exact inv_call_ready h id hb
    · have habs : (w.cache.getD createCache).has (argAt args 0) = false := by
        simpa using hhas
      rw [downscale_fresh hv habs]
      exact inv_call_fresh h id (source_valid hv).2 habs

theorem inv_step {w : World} (h : w.Inv) (s : Step) : (w.step s).Inv := by
  cases s with
  | call id args => exact inv_call h id args
  | loaded r sc img => exact inv_loaded h r sc img
  | produced r sc img => exact inv_produced h r sc img

theorem inv_run (steps : List Step) {w : World} (h : w.Inv) : (w.run steps).Inv := by
  induction steps generalizing w with
  | nil => exact h
  | cons s rest ih => exact ih (inv_step h s)

/-- C15. After any sequence of steps from the initial state (calls of
`downscale`, load callbacks, `produceResult` callbacks): at most one
acquisition has been started for any key; every source buffer passed to
`scaleImageData` for a request is the buffer acquired for the source of that
request, and a source has only one acquired buffer, so all requests for one
key receive the same buffer; and a valid request for a key whose acquisition
was already started starts no acquisition: it is either appended to the
waiters of the pending entry or served at once with the acquired buffer. -/
theorem single_flight (steps : List Step) :
    (∀ key, (World.initial.run steps).started.count key ≤ 1) ∧
    (∀ d ∈ (World.initial.run steps).delivered,
      ∃ b, d.2 = some b ∧ (d.1.source, b) ∈ (World.initial.run steps).acquired) ∧
    (∀ a1 ∈ (World.initial.run steps).acquired, ∀ a2 ∈ (World.initial.run steps).acquired,
      a1.1 = a2.1 → a1.2 = a2.2) ∧
    (∀ a ∈ (World.initial.run steps).acquired, a.1 ∈ (World.initial.run steps).started) ∧
    (∀ d1 ∈ (World.initial.run steps).delivered, ∀ d2 ∈ (World.initial.run steps).delivered,
      d1.1.source = d2.1.source → d1.2 = d2.2) ∧
    (∀ id args, validateArguments args = none →
      argAt args 0 ∈ (World.initial.run steps).started →
      (downscale (World.initial.run steps) id args).1.started
        = (World.initial.run steps).started ∧
      (downscale (World.initial.run steps) id args).1.loading
        = (World.initial.run steps).loading ∧
      ((∃ i ws,
          ((World.initial.run steps).cache.getD createCache).PendingAt (argAt args 0) i ws ∧
          ((downscale (World.initial.run steps) id args).1.cache.getD
              createCache).subscribes[i]?
            = some (some (ws ++ [some { id := id, args := args }])) ∧
          (downscale (World.initial.run steps) id args).1.delivered
            = (World.initial.run steps).delivered) ∨
       (∃ b, (argAt args 0, b) ∈ (World.initial.run steps).acquired ∧
          (downscale (World.initial.run steps) id args).1.delivered
            = (World.initial.run steps).delivered
                ++ [({ id := id, args := args }, some b)]))) := by
  have h := inv_run steps inv_initial
  have hdel : ∀ d1 ∈ (World.initial.run steps).delivered,
      ∀ d2 ∈ (World.initial.run steps).delivered, d1.1.source = d2.1.source → d1.2 = d2.2 := by
    intro d1 hd1 d2 hd2 hs
    obtain ⟨b1, e1, m1⟩ := h.delivered_ok d1 hd1
    obtain ⟨b2, e2, m2⟩ := h.delivered_ok d2 hd2
    have := h.acquired_fun _ m1 _ m2 hs
    simp only at this
    rw [e1, e2, this]
  refine ⟨?_, h.delivered_ok, h.acquired_fun, ?_, hdel, ?_⟩
  · intro key
    have hn : (World.initial.run steps).started.Nodup := by
      rw [h.started_eq]; exact h.nodup
    exact List.nodup_iff_count_le_one.mp hn key
  · intro a ha
    rw [h.started_eq]
    exact h.acquired_keys a ha
  · intro id args hv hst
    rw [h.started_eq] at hst
    obtain ⟨i, hi⟩ := indexOf_of_mem hst (source_valid hv).2
    have hhas : ((World.initial.run steps).cache.getD createCache).has (argAt args 0) = true := by
      unfold Cache.has; rw [hi]; rfl
    rcases cached_cases h hhas with ⟨j, ws, hp⟩ | ⟨j, b, hr, hb⟩
    · rw [downscale_cached_pending hv hp]
      refine ⟨rfl, rfl, Or.inl ⟨j, ws, hp, ?_, by simp⟩⟩
      have hlt : j < ((World.initial.run steps).cache.getD createCache).subscribes.length := by
        rw [hp.1.2]; exact indexOf_lt hp.2.1
      simp only [Option.getD_some]
      exact List.getElem?_set_self hlt
    · rw [downscale_cached_ready hv hr]
      exact ⟨rfl, rfl, Or.inr ⟨b, hb, rfl⟩⟩

/-- C15 (witness). Two requests for `"a.jpg"`, the load of the first, a third
request, the end of `produceResult`, a fourth request: one acquisition was
started and the four requests received the same buffer. -/
theorem single_flight_witness :
    (World.initial.run
      [Step.call 1 [JSValue.str "a.jpg", JSValue.num (JSNum.fin 2), JSValue.num (JSNum.fin 2)],
       Step.call 2 [JSValue.str "a.jpg", JSValue.num (JSNum.fin 1), JSValue.num (JSNum.fin 1)],
       Step.loaded ⟨1, [JSValue.str "a.jpg", JSValue.num (JSNum.fin 2),
          JSValue.num (JSNum.fin 2)]⟩ (some 0) ⟨2, 2, [1, 2, 3, 4]⟩,
       Step.call 3 [JSValue.str "a.jpg", JSValue.num (JSNum.fin 1), JSValue.num (JSNum.fin 1)],
       Step.produced ⟨1, [JSValue.str "a.jpg", JSValue.num (JSNum.fin 2),
          JSValue.num (JSNum.fin 2)]⟩ (some 0) ⟨2, 2, [1, 2, 3, 4]⟩,
       Step.call 4 [JSValue.str "a.jpg", JSValue.num (JSNum.fin 1),
          JSValue.num (JSNum.fin 1)]]).started.count (JSValue.str "a.jpg") ≤ 1 ∧
    (World.initial.run
      [Step.call 1 [JSValue.str "a.jpg", JSValue.num (JSNum.fin 2), JSValue.num (JSNum.fin 2)],
       Step.call 2 [JSValue.str "a.jpg", JSValue.num (JSNum.fin 1), JSValue.num (JSNum.fin 1)],
       Step.loaded ⟨1, [JSValue.str "a.jpg", JSValue.num (JSNum.fin 2),
          JSValue.num (JSNum.fin 2)]⟩ (some 0) ⟨2, 2, [1, 2, 3, 4]⟩,
       Step.call 3 [JSValue.str "a.jpg", JSValue.num (JSNum.fin 1), JSValue.num (JSNum.fin 1)],
       Step.produced ⟨1, [JSValue.str "a.jpg", JSValue.num (JSNum.fin 2),
          JSValue.num (JSNum.fin 2)]⟩ (some 0) ⟨2, 2, [1, 2, 3, 4]⟩,
       Step.call 4 [JSValue.str "a.jpg", JSValue.num (JSNum.fin 1),
          JSValue.num (JSNum.fin 1)]]).delivered.map (fun d => (d.1.id, d.2))
      = [(1, some ⟨2, 2, [1, 2, 3, 4]⟩), (2, some ⟨2, 2, [1, 2, 3, 4]⟩),
         (3, some ⟨2, 2, [1, 2, 3, 4]⟩), (4, some ⟨2, 2, [1, 2, 3, 4]⟩)] :=
  ⟨(single_flight _).1 (JSValue.str "a.jpg"), by decide!⟩

end Downscale
